import Mathlib

/-!
Verification of the `aldev` language-scaffolding scripts
(`scripts/new_lang.py` and `scripts/new_lang_peg.py`).

File contents are modelled as `List Char` (named `Str`), paths as lists of
path segments, and the filesystem as an association list from paths to
contents.  Python's `str.replace` (replace every non-overlapping occurrence,
scanning left to right) is modelled by `replaceAll`, Python's `in` operator
on strings by `containsSub`, and `str.lstrip(".")` by `lstripDot`.
-/

set_option maxHeartbeats 2000000
set_option maxRecDepth 8000

/-- Contents of a file (or a marker / insertion string), as a list of characters. -/
abbrev Str : Type := List Char

/-- A filesystem path, as a list of path segments. -/
abbrev FPath : Type := List Str

/-- A filesystem: an association list from paths to file contents. -/
abbrev FS : Type := List (FPath × Str)

/-- Read a file from the filesystem; `none` when the file does not exist. -/
def fsRead (fs : FS) (p : FPath) : Option Str :=
  match fs with
  | [] => none
  | (q, c) :: rest => if q = p then some c else fsRead rest p

/-- Write a file (creating it or overwriting it, as `Path.write_text` does). -/
def fsWrite (fs : FS) (p : FPath) (c : Str) : FS :=
  match fs with
  | [] => [(p, c)]
  | (q, d) :: rest => if q = p then (p, c) :: rest else (q, d) :: fsWrite rest p c

/-- Does a file exist at exactly this path (`Path.exists` for a plain file)? -/
def fsFileExists (fs : FS) (p : FPath) : Bool :=
  (fsRead fs p).isSome

/-- Is `p` a segmentwise prefix of `q`?  Used to model directory existence. -/
def segPre : FPath → FPath → Bool
  | [], _ => true
  | _ :: _, [] => false
  | a :: as, b :: bs => if a = b then segPre as bs else false

/-- Python `Path.exists()`: the path is a file, or a directory containing some file. -/
def fsPathExists (fs : FS) (p : FPath) : Bool :=
  fs.any (fun e => segPre p e.1)

/-- Does `pat` occur at the very start of `s`?  (String prefix test.) -/
def startsWith : Str → Str → Bool
  | [], _ => true
  | _ :: _, [] => false
  | p :: ps, c :: cs => if p = c then startsWith ps cs else false

/-- Python's `pat in s` substring test. -/
def containsSub : Str → Str → Bool
  | [], pat => pat.isEmpty
  | c :: rest, pat => startsWith pat (c :: rest) || containsSub rest pat

/-- Number of positions of `s` (including the end position) where `pat` starts. -/
def occCount : Str → Str → Nat
  | [], pat => if pat.isEmpty then 1 else 0
  | c :: rest, pat =>
      (if startsWith pat (c :: rest) then 1 else 0) + occCount rest pat

/-- Helper for `replaceAll` when the pattern is empty: Python inserts the
replacement before every character and at the end. -/
def replEmpty (rep : Str) : Str → Str
  | [] => rep
  | c :: rest => rep ++ c :: replEmpty rep rest

/-- Core loop of `replaceAll` for a non-empty pattern.  The `skip` counter
counts characters still to be consumed by the match just replaced. -/
def replCore : Str → Nat → Str → Str → Str
  | [], _, _, _ => []
  | _ :: rest, skip + 1, pat, rep => replCore rest skip pat rep
  | c :: rest, 0, pat, rep =>
      if startsWith pat (c :: rest) then
        rep ++ replCore rest (pat.length - 1) pat rep
      else
        c :: replCore rest 0 pat rep

/-- Python's `s.replace(pat, rep)`: replace every non-overlapping occurrence
of `pat` in `s` by `rep`, scanning left to right. -/
def replaceAll (s pat rep : Str) : Str :=
  if pat.isEmpty then replEmpty rep s else replCore s 0 pat rep

/-- Python's `s.lstrip(".")`: remove every leading `.` character. -/
def lstripDot : Str → Str
  | [] => []
  | c :: rest => if c = '.' then lstripDot rest else c :: rest

/-- ASCII lowercasing of a string, as Python `str.lower` acts on ASCII text. -/
def toLowerStr (s : Str) : Str := s.map Char.toLower

/-- ASCII uppercasing of a string, as `to_upper` in the scripts. -/
def toUpperStr (s : Str) : Str := s.map Char.toUpper

/-- Helper for `toTitleStr`; the flag records whether the previous character
was alphabetic (Python `str.title` capitalizes letters that follow a
non-letter and lowercases the rest). -/
def titleAux : Bool → Str → Str
  | _, [] => []
  | prevAlpha, c :: rest =>
      (if prevAlpha then c.toLower else c.toUpper) :: titleAux c.isAlpha rest

/-- Python's `str.title`, as `to_title` in the scripts. -/
def toTitleStr (s : Str) : Str := titleAux false s

/-- Is `c` an ASCII lowercase letter `a`-`z`? -/
def isLowerAlpha (c : Char) : Bool := 'a' ≤ c && c ≤ 'z'

/-- Is `c` an ASCII lowercase letter or digit? -/
def isLowerAlnum (c : Char) : Bool := isLowerAlpha c || ('0' ≤ c && c ≤ '9')

/-- Does the whole string match `[a-z][a-z0-9]*`? -/
def identCore : Str → Bool
  | [] => false
  | c :: rest => isLowerAlpha c && rest.all isLowerAlnum

/-- Python's `re.match(r'^[a-z][a-z0-9]*$', s)`: the pattern must match the
whole string, except that `$` also matches just before one trailing newline. -/
def reMatchIdent (s : Str) : Bool :=
  identCore s ||
    (match s.getLast? with
     | some c => if c = '\n' then identCore s.dropLast else false
     | none => false)

-- ---------------------------------------------------------------------------
-- Basic lemmas about the string model
-- ---------------------------------------------------------------------------

theorem startsWith_iff (pat s : Str) :
    startsWith pat s = true ↔ ∃ t, s = pat ++ t := by
  induction pat generalizing s with
  | nil => simp [startsWith]
  | cons p ps ih =>
    cases s with
    | nil => simp [startsWith]
    | cons c cs =>
      simp only [startsWith]
      constructor
      · intro h
        split at h
        · next heq =>
          obtain ⟨t, ht⟩ := (ih cs).mp h
          exact ⟨t, by simp [heq, ht]⟩
        · exact absurd h (by simp)
      · rintro ⟨t, ht⟩
        simp only [List.cons_append, List.cons.injEq] at ht
        obtain ⟨h1, h2⟩ := ht
        simp [h1, (ih cs).mpr ⟨t, h2⟩]

theorem startsWith_append (pat t : Str) : startsWith pat (pat ++ t) = true :=
  (startsWith_iff pat (pat ++ t)).mpr ⟨t, rfl⟩

theorem containsSub_iff (s pat : Str) :
    containsSub s pat = true ↔ ∃ u v, s = u ++ pat ++ v := by
  induction s with
  | nil =>
    simp only [containsSub, List.isEmpty_iff]
    constructor
    · intro h; exact ⟨[], [], by simp [h]⟩
    · rintro ⟨u, v, huv⟩
      have := huv.symm
      simp only [List.append_eq_nil] at this
      exact this.1.2
  | cons c rest ih =>
    simp only [containsSub, Bool.or_eq_true]
    constructor
    · intro h
      cases h with
      | inl h =>
        obtain ⟨t, ht⟩ := (startsWith_iff pat (c :: rest)).mp h
        exact ⟨[], t, by simp [ht]⟩
      | inr h =>
        obtain ⟨u, v, huv⟩ := ih.mp h
        exact ⟨c :: u, v, by simp [huv]⟩
    · rintro ⟨u, v, huv⟩
      cases u with
      | nil =>
        left
        exact (startsWith_iff pat (c :: rest)).mpr ⟨v, by simpa using huv⟩
      | cons a as =>
        right
        simp only [List.cons_append, List.cons.injEq] at huv
        exact ih.mpr ⟨as, v, huv.2⟩

theorem containsSub_of_middle (u g v : Str) : containsSub (u ++ g ++ v) g = true :=
  (containsSub_iff _ _).mpr ⟨u, v, rfl⟩

theorem containsSub_mono_left {s pat : Str} (x : Str) (h : containsSub s pat = true) :
    containsSub (x ++ s) pat = true := by
  obtain ⟨u, v, huv⟩ := (containsSub_iff s pat).mp h
  exact (containsSub_iff _ _).mpr ⟨x ++ u, v, by simp [huv]⟩

theorem containsSub_mono_right {s pat : Str} (y : Str) (h : containsSub s pat = true) :
    containsSub (s ++ y) pat = true := by
  obtain ⟨u, v, huv⟩ := (containsSub_iff s pat).mp h
  exact (containsSub_iff _ _).mpr ⟨u, v ++ y, by simp [huv]⟩

theorem replCore_skip (pat rep : Str) (x t : Str) :
    replCore (x ++ t) x.length pat rep = replCore t 0 pat rep := by
  induction x with
  | nil => rfl
  | cons c cs ih => simpa [replCore] using ih

theorem replCore_match (p : Char) (ps t rep : Str) :
    replCore ((p :: ps) ++ t) 0 (p :: ps) rep =
      rep ++ replCore t 0 (p :: ps) rep := by
  have hsw : startsWith (p :: ps) (p :: (ps ++ t)) = true := by
    have := startsWith_append (p :: ps) t
    rwa [List.cons_append] at this
  rw [List.cons_append]
  simp only [replCore, hsw, if_true]
  have hlen : (p :: ps).length - 1 = ps.length := by simp
  rw [hlen, replCore_skip]

theorem replCore_nomatch (c : Char) (rest pat rep : Str)
    (h : startsWith pat (c :: rest) = false) :
    replCore (c :: rest) 0 pat rep = c :: replCore rest 0 pat rep := by
  cases pat with
  | nil => simp [startsWith] at h
  | cons p ps => simp [replCore, h]

theorem replCore_no_occ (s pat rep : Str) (h : containsSub s pat = false) :
    replCore s 0 pat rep = s := by
  induction s with
  | nil => rfl
  | cons c rest ih =>
    simp only [containsSub, Bool.or_eq_false_iff] at h
    rw [replCore_nomatch c rest pat rep h.1, ih h.2]

theorem replaceAll_no_occ (s pat rep : Str) (h : containsSub s pat = false) :
    replaceAll s pat rep = s := by
  have hne : pat.isEmpty = false := by
    cases pat with
    | nil =>
      exfalso
      cases s with
      | nil => simp [containsSub] at h
      | cons c rest => simp [containsSub, startsWith] at h
    | cons p ps => rfl
  simp [replaceAll, hne, replCore_no_occ s pat rep h]

theorem occCount_cons (c : Char) (rest pat : Str) :
    occCount (c :: rest) pat =
      (if startsWith pat (c :: rest) then 1 else 0) + occCount rest pat := rfl

theorem occCount_cons_pos (c : Char) (rest pat : Str)
    (h : startsWith pat (c :: rest) = true) :
    occCount (c :: rest) pat = 1 + occCount rest pat := by
  rw [occCount_cons, h]
  simp

theorem occCount_cons_neg (c : Char) (rest pat : Str)
    (h : startsWith pat (c :: rest) = false) :
    occCount (c :: rest) pat = occCount rest pat := by
  rw [occCount_cons, h]
  simp

theorem occCount_append_ge (x y pat : Str) : occCount y pat ≤ occCount (x ++ y) pat := by
  induction x with
  | nil => simp
  | cons c cs ih =>
    have hA : ((c :: cs) ++ y : Str) = c :: (cs ++ y) := by simp
    rw [hA]
    cases hs : startsWith pat (c :: (cs ++ y)) with
    | false =>
      rw [occCount_cons_neg _ _ _ hs]
      exact ih
    | true =>
      rw [occCount_cons_pos _ _ _ hs]
      omega

theorem occCount_nil_pat (v : Str) : occCount v [] = v.length + 1 := by
  induction v with
  | nil => rfl
  | cons c rest ih =>
    rw [occCount_cons_pos c rest [] rfl, ih]
    simp
    omega

theorem occCount_middle_pos (u v pat : Str) :
    1 ≤ occCount (u ++ pat ++ v) pat := by
  induction u with
  | nil =>
    cases pat with
    | nil => simp [occCount_nil_pat]
    | cons p ps =>
      have hsw : startsWith (p :: ps) (p :: (ps ++ v)) = true := by
        have := startsWith_append (p :: ps) v
        rwa [List.cons_append] at this
      have hA : (([] ++ (p :: ps) ++ v) : Str) = p :: (ps ++ v) := by simp
      rw [hA, occCount_cons_pos _ _ _ hsw]
      omega
  | cons c cs ih =>
    have hA : ((c :: cs) ++ pat ++ v : Str) = c :: (cs ++ pat ++ v) := by simp
    rw [hA]
    cases hs : startsWith pat (c :: (cs ++ pat ++ v)) with
    | false =>
      rw [occCount_cons_neg _ _ _ hs]
      exact ih
    | true =>
      rw [occCount_cons_pos _ _ _ hs]
      omega

theorem occCount_zero_not_contains (s pat : Str) (h : occCount s pat = 0) :
    containsSub s pat = false := by
  induction s with
  | nil =>
    simp only [occCount] at h
    by_cases hp : pat.isEmpty <;> simp_all [containsSub]
  | cons c rest ih =>
    rw [occCount_cons] at h
    simp only [containsSub, Bool.or_eq_false_iff]
    constructor
    · by_cases hs : startsWith pat (c :: rest) = true <;> simp_all
    · exact ih (by omega)

theorem replaceAll_unique_occ (p : Char) (ps : Str) :
    ∀ (u v rep : Str), occCount (u ++ (p :: ps) ++ v) (p :: ps) = 1 →
    replaceAll (u ++ (p :: ps) ++ v) (p :: ps) rep = u ++ rep ++ v := by
  intro u
  induction u with
  | nil =>
    intro v rep hocc
    have hsw : startsWith (p :: ps) (p :: (ps ++ v)) = true := by
      have := startsWith_append (p :: ps) v
      rwa [List.cons_append] at this
    have hA : (([] ++ (p :: ps) ++ v) : Str) = p :: (ps ++ v) := by simp
    rw [hA, occCount_cons_pos _ _ _ hsw] at hocc
    have hv0 : occCount v (p :: ps) = 0 := by
      have := occCount_append_ge ps v (p :: ps)
      omega
    have hnov : containsSub v (p :: ps) = false := occCount_zero_not_contains _ _ hv0
    show replCore ([] ++ (p :: ps) ++ v) 0 (p :: ps) rep = [] ++ rep ++ v
    rw [List.nil_append, List.nil_append, replCore_match p ps v rep,
      replCore_no_occ v (p :: ps) rep hnov]
  | cons c cs ih =>
    intro v rep hocc
    have hpos := occCount_middle_pos cs v (p :: ps)
    have hA : ((c :: cs) ++ (p :: ps) ++ v : Str) = c :: (cs ++ (p :: ps) ++ v) := by
      simp
    rw [hA] at hocc
    have hnosw : startsWith (p :: ps) (c :: (cs ++ (p :: ps) ++ v)) = false := by
      cases hs : startsWith (p :: ps) (c :: (cs ++ (p :: ps) ++ v)) with
      | false => rfl
      | true =>
        rw [occCount_cons_pos _ _ _ hs] at hocc
        omega
    rw [occCount_cons_neg _ _ _ hnosw] at hocc
    have ihv : replCore (cs ++ (p :: ps) ++ v) 0 (p :: ps) rep = cs ++ rep ++ v :=
      ih v rep hocc
    have hR : ((c :: cs) ++ rep ++ v : Str) = c :: (cs ++ rep ++ v) := by
      simp
    show replCore ((c :: cs) ++ (p :: ps) ++ v) 0 (p :: ps) rep = (c :: cs) ++ rep ++ v
    rw [hA, hR, replCore_nomatch c _ _ rep hnosw, ihv]

theorem replCore_id_or_insert (p : Char) (ps rep : Str) :
    ∀ s : Str, replCore s 0 (p :: ps) rep = s ∨
      ∃ x y, replCore s 0 (p :: ps) rep = x ++ rep ++ y := by
  intro s
  induction s with
  | nil => exact Or.inl rfl
  | cons c rest ih =>
    cases hs : startsWith (p :: ps) (c :: rest) with
    | true =>
      obtain ⟨t, ht⟩ := (startsWith_iff (p :: ps) (c :: rest)).mp hs
      right
      refine ⟨[], replCore t 0 (p :: ps) rep, ?_⟩
      rw [ht, replCore_match p ps t rep]
      simp
    | false =>
      rw [replCore_nomatch c rest _ rep hs]
      cases ih with
      | inl h => exact Or.inl (by rw [h])
      | inr h =>
        obtain ⟨x, y, hxy⟩ := h
        exact Or.inr ⟨c :: x, y, by simp [hxy]⟩

theorem replCore_insert_of_contains (p : Char) (ps rep : Str) :
    ∀ s : Str, containsSub s (p :: ps) = true →
      ∃ x y, replCore s 0 (p :: ps) rep = x ++ rep ++ y := by
  intro s
  induction s with
  | nil => intro h; simp [containsSub] at h
  | cons c rest ih =>
    intro h
    cases hs : startsWith (p :: ps) (c :: rest) with
    | true =>
      obtain ⟨t, ht⟩ := (startsWith_iff (p :: ps) (c :: rest)).mp hs
      refine ⟨[], replCore t 0 (p :: ps) rep, ?_⟩
      rw [ht, replCore_match p ps t rep]
      simp
    | false =>
      simp only [containsSub, hs, Bool.false_or] at h
      obtain ⟨x, y, hxy⟩ := ih h
      rw [replCore_nomatch c rest _ rep hs]
      exact ⟨c :: x, y, by simp [hxy]⟩

/-- One literal-substring substitution performed by the scripts: the marker
that is searched for and the full replacement text that is substituted for
it (`content.replace(pat, rep)`). -/
structure Step where
  pat : Str
  rep : Str
deriving Repr, DecidableEq

/-- Apply a sequence of `content.replace` substitutions in order, as the
chained statements in `generate_language` do. -/
def applySteps (c : Str) (steps : List Step) : Str :=
  match steps with
  | [] => c
  | st :: rest => applySteps (replaceAll c st.pat st.rep) rest

/-- A string that embeds `g` as a factor. -/
def embedsGuard (s g : Str) : Prop := ∃ u v, s = u ++ g ++ v

theorem containsSub_of_embeds {s g : Str} (h : embedsGuard s g) :
    containsSub s g = true := by
  obtain ⟨u, v, huv⟩ := h
  rw [huv]
  exact containsSub_of_middle u g v

theorem embedsGuard_append_left (x : Str) {s g : Str} (h : embedsGuard s g) :
    embedsGuard (x ++ s) g := by
  obtain ⟨u, v, huv⟩ := h
  exact ⟨x ++ u, v, by simp [huv]⟩

theorem embedsGuard_append_right (y : Str) {s g : Str} (h : embedsGuard s g) :
    embedsGuard (s ++ y) g := by
  obtain ⟨u, v, huv⟩ := h
  exact ⟨u, v ++ y, by simp [huv]⟩

theorem contains_replaceAll_keep {c pat rep g : Str}
    (hpat : pat ≠ []) (hg : containsSub c g = true)
    (hrep : embedsGuard rep g) :
    containsSub (replaceAll c pat rep) g = true := by
  obtain ⟨p, ps, hp⟩ : ∃ p ps, pat = p :: ps := by
    cases pat with
    | nil => exact absurd rfl hpat
    | cons p ps => exact ⟨p, ps, rfl⟩
  subst hp
  have hred : replaceAll c (p :: ps) rep = replCore c 0 (p :: ps) rep := rfl
  rw [hred]
  cases replCore_id_or_insert p ps rep c with
  | inl h => rw [h]; exact hg
  | inr h =>
    obtain ⟨x, y, hxy⟩ := h
    rw [hxy]
    exact containsSub_mono_right y (containsSub_mono_left x (containsSub_of_embeds hrep))

theorem contains_replaceAll_fire {c pat rep g : Str}
    (hpat : pat ≠ []) (hc : containsSub c pat = true)
    (hrep : embedsGuard rep g) :
    containsSub (replaceAll c pat rep) g = true := by
  obtain ⟨p, ps, hp⟩ : ∃ p ps, pat = p :: ps := by
    cases pat with
    | nil => exact absurd rfl hpat
    | cons p ps => exact ⟨p, ps, rfl⟩
  subst hp
  have hred : replaceAll c (p :: ps) rep = replCore c 0 (p :: ps) rep := rfl
  rw [hred]
  obtain ⟨x, y, hxy⟩ := replCore_insert_of_contains p ps rep c hc
  rw [hxy]
  exact containsSub_mono_right y (containsSub_mono_left x (containsSub_of_embeds hrep))

theorem applySteps_guard_keep {g : Str} :
    ∀ (steps : List Step) (c : Str),
      (∀ st ∈ steps, st.pat ≠ []) →
      (∀ st ∈ steps, embedsGuard st.rep g) →
      containsSub c g = true →
      containsSub (applySteps c steps) g = true := by
  intro steps
  induction steps with
  | nil => intro c _ _ hg; exact hg
  | cons st rest ih =>
    intro c hpat hrep hg
    have h1 : containsSub (replaceAll c st.pat st.rep) g = true :=
      contains_replaceAll_keep (hpat st (by simp)) hg (hrep st (by simp))
    exact ih _ (fun s hs => hpat s (by simp [hs])) (fun s hs => hrep s (by simp [hs])) h1

theorem applySteps_guard_chain {g : Str} :
    ∀ (steps : List Step) (c : Str),
      (∀ st ∈ steps, st.pat ≠ []) →
      (∀ st ∈ steps, embedsGuard st.rep g) →
      (containsSub c g = true ∨ ∃ st ∈ steps, containsSub c st.pat = true) →
      containsSub (applySteps c steps) g = true := by
  intro steps
  induction steps with
  | nil =>
    intro c _ _ h
    cases h with
    | inl h => exact h
    | inr h => obtain ⟨st, hst, _⟩ := h; simp at hst
  | cons st rest ih
  =>
    intro c hpat hrep h
    have hpat0 : st.pat ≠ [] := hpat st (by simp)
    have hrep0 : embedsGuard st.rep g := hrep st (by simp)
    have hpatR : ∀ s ∈ rest, s.pat ≠ [] := fun s hs => hpat s (by simp [hs])
    have hrepR : ∀ s ∈ rest, embedsGuard s.rep g := fun s hs => hrep s (by simp [hs])
    cases h with
    | inl hg =>
      exact applySteps_guard_keep (st :: rest) c hpat hrep hg
    | inr hex =>
      obtain ⟨s0, hs0mem, hs0c⟩ := hex
      rcases List.mem_cons.mp hs0mem with heq | hmem
      · subst heq
        have h1 : containsSub (replaceAll c s0.pat s0.rep) g = true :=
          contains_replaceAll_fire hpat0 hs0c hrep0
        exact applySteps_guard_keep rest _ hpatR hrepR h1
      · obtain ⟨p, ps, hp⟩ : ∃ p ps, st.pat = p :: ps := by
          cases hq : st.pat with
          | nil => exact absurd hq hpat0
          | cons p ps => exact ⟨p, ps, rfl⟩
        have hred : replaceAll c st.pat st.rep = replCore c 0 (p :: ps) st.rep := by
          rw [hp]; rfl
        show containsSub (applySteps (replaceAll c st.pat st.rep) rest) g = true
        cases replCore_id_or_insert p ps st.rep c with
        | inl hid =>
          rw [hred, hid]
          exact ih c hpatR hrepR (Or.inr ⟨s0, hmem, hs0c⟩)
        | inr hins =>
          obtain ⟨x, y, hxy⟩ := hins
          rw [hred, hxy]
          have hgx : containsSub (x ++ st.rep ++ y) g = true :=
            containsSub_mono_right y (containsSub_mono_left x (containsSub_of_embeds hrep0))
          exact applySteps_guard_keep rest _ hpatR hrepR hgx

theorem applySteps_no_occ :
    ∀ (steps : List Step) (c : Str),
      (∀ st ∈ steps, containsSub c st.pat = false) →
      applySteps c steps = c := by
  intro steps
  induction steps with
  | nil => intro c _; rfl
  | cons st rest ih =>
    intro c h
    have h0 : containsSub c st.pat = false := h st (by simp)
    show applySteps (replaceAll c st.pat st.rep) rest = c
    rw [replaceAll_no_occ c st.pat st.rep h0]
    exact ih c (fun s hs => h s (by simp [hs]))

-- ---------------------------------------------------------------------------
-- Model of scripts/new_lang.py
-- ---------------------------------------------------------------------------

/-- One console report line of a run, abstracted to its action kind and
target path: `Created`/`[dry-run] Would create`, the `impl/` directory
report, `Skipping ... (already contains ...)`, and `Updated`/`[dry-run]
Would update`. -/
inductive RAction where
  | createA (p : FPath)
  | mkdirA (p : FPath)
  | skipA (p : FPath)
  | updateA (p : FPath)
deriving Repr, DecidableEq

/-- `create_file`: on a dry run only report; otherwise write (an unscoped
overwrite) and report.  The report kind is the same either way. -/
def createFileA (fs : FS) (p : FPath) (c : Str) (dry : Bool) : FS × RAction :=
  if dry then (fs, RAction.createA p) else (fsWrite fs p c, RAction.createA p)

/-- Emit a list of (path, content) artifacts in order via `create_file`. -/
def emitList (dry : Bool) : List (FPath × Str) → FS → FS × List RAction
  | [], fs => (fs, [])
  | (p, c) :: rest, fs =>
      let r1 := createFileA fs p c dry
      let r2 := emitList dry rest r1.1
      (r2.1, r1.2 :: r2.2)

/-- Derived name forms and formatted extension strings: the `subs` dict of
`generate_language` (`Name` duplicates `name` and is omitted). -/
structure Subs where
  name : Str
  nameU : Str
  title : Str
  extsC : Str
  extsLua : Str
  ext : Str
deriving Repr, DecidableEq

/-- Python `f'".{e.lstrip(".")}"'`: one formatted extension. -/
def fmtExtQ (e : Str) : Str := ("\".").data ++ lstripDot e ++ ("\"").data

/-- `", ".join(...) + ", NULL"`: the C-array extension list. -/
def extsCFmt (exts : List Str) : Str :=
  List.intercalate ((", ").data) (exts.map fmtExtQ) ++ ((", NULL").data)

/-- `", ".join(...)`: the Lua extension list. -/
def extsLuaFmt (exts : List Str) : Str :=
  List.intercalate ((", ").data) (exts.map fmtExtQ)

/-- `extensions[0].lstrip(".")`: the primary extension without its dot. -/
def primaryExt (exts : List Str) : Str := lstripDot (exts.headD [])

/-- Build the substitution record exactly as `generate_language` does. -/
def buildSubs (name : Str) (exts : List Str) : Subs :=
  { name := toLowerStr name
    nameU := toUpperStr name
    title := toTitleStr name
    extsC := extsCFmt exts
    extsLua := extsLuaFmt exts
    ext := primaryExt exts }

/-- The fixed template catalog of `new_lang.py`, one rendering function per
artifact kind.  Template bodies are long literal C/CMake/Lua skeletons whose
exact text never influences control flow, so they are kept parametric; the
single exception, the CMake library fragment (whose rendered content can be
read back by the patch phase when the plugin is named `loki`), is transcribed
concretely below. -/
structure Templates where
  registerH : Subs → Str
  registerC : Subs → Str
  replH : Subs → Str
  replC : Subs → Str
  dispatchC : Subs → Str
  parserH : Subs → Str
  parserC : Subs → Str
  runtimeH : Subs → Str
  runtimeC : Subs → Str
  testCMake : Subs → Str
  testParser : Subs → Str
  docReadme : Subs → Str
  syntaxLua : Subs → Str

/-- Rendering of `CMAKE_LIBRARY_TEMPLATE` (new_lang.py), transcribed in full. -/
def cmakeLibraryRender (s : Subs) : Str :=
  ("# ").data ++ s.title ++ (" language library\ninclude_guard(GLOBAL)\n\nset(").data
    ++ s.nameU ++ ("_SOURCES\n    $\x7bPSND_ROOT_DIR\x7d/src/lang/").data
    ++ s.name ++ ("/impl/").data ++ s.name
    ++ ("_parser.c\n    $\x7bPSND_ROOT_DIR\x7d/src/lang/").data
    ++ s.name ++ ("/impl/").data ++ s.name
    ++ ("_runtime.c\n)\n\nadd_library(").data ++ s.name
    ++ (" STATIC $\x7b").data ++ s.nameU
    ++ ("_SOURCES\x7d)\n\ntarget_include_directories(").data ++ s.name
    ++ ("\n    PUBLIC\n        $\x7bPSND_ROOT_DIR\x7d/include\n        $\x7bPSND_ROOT_DIR\x7d/src/lang/").data
    ++ s.name
    ++ ("/impl\n    PRIVATE\n        $\x7bPSND_ROOT_DIR\x7d/src\n)\n\ntarget_link_libraries(").data
    ++ s.name ++ (" PRIVATE shared)\n").data

/-- Per-plugin directory `src/lang/<name>` under the project root. -/
def nlLangDir (root : FPath) (nameL : Str) : FPath :=
  root ++ [("src").data, ("lang").data, nameL]

/-- Implementation directory `src/lang/<name>/impl`. -/
def nlImplDir (root : FPath) (nameL : Str) : FPath :=
  nlLangDir root nameL ++ [("impl").data]

/-- The first five artifacts created by `generate_language` (before the
`impl/` directory report). -/
def nlFilesA (T : Templates) (s : Subs) (root : FPath) : List (FPath × Str) :=
  [ (nlLangDir root s.name ++ [("register.h").data], T.registerH s),
    (nlLangDir root s.name ++ [("register.c").data], T.registerC s),
    (nlLangDir root s.name ++ [("repl.h").data], T.replH s),
    (nlLangDir root s.name ++ [("repl.c").data], T.replC s),
    (nlLangDir root s.name ++ [("dispatch.c").data], T.dispatchC s) ]

/-- The remaining artifacts created by `generate_language`, in order. -/
def nlFilesB (T : Templates) (s : Subs) (root : FPath) : List (FPath × Str) :=
  [ (nlImplDir root s.name ++ [s.name ++ ("_parser.h").data], T.parserH s),
    (nlImplDir root s.name ++ [s.name ++ ("_parser.c").data], T.parserC s),
    (nlImplDir root s.name ++ [s.name ++ ("_runtime.h").data], T.runtimeH s),
    (nlImplDir root s.name ++ [s.name ++ ("_runtime.c").data], T.runtimeC s),
    (root ++ [("scripts").data, ("cmake").data,
        ("psnd_").data ++ s.name ++ ("_library.cmake").data], cmakeLibraryRender s),
    (root ++ [("tests").data, s.name, ("CMakeLists.txt").data], T.testCMake s),
    (root ++ [("tests").data, s.name, ("test_parser.c").data], T.testParser s),
    (root ++ [("docs").data, s.name, ("README.md").data], T.docReadme s),
    (root ++ [(".psnd").data, ("languages").data, s.name ++ (".lua").data], T.syntaxLua s) ]

/-- Every artifact of one `new_lang.py` run, in emission order. -/
def nlFilesAll (T : Templates) (s : Subs) (root : FPath) : List (FPath × Str) :=
  nlFilesA T s root ++ nlFilesB T s root

/-- A per-host-file patch plan: the guard string checked once per file, and
the ordered `content.replace` substitutions applied when it is absent. -/
structure PatchPlan where
  path : FPath
  guardStr : Str
  steps : List Step
deriving Repr, DecidableEq

/-- One `generate_language` update block: skip silently when the host file
is missing, report a skip when the guard is already present, otherwise apply
every substitution and (except on a dry run) write the result back. -/
def runPatch (pl : PatchPlan) (dry : Bool) (fs : FS) : FS × List RAction :=
  match fsRead fs pl.path with
  | none => (fs, [])
  | some c =>
      if containsSub c pl.guardStr then (fs, [RAction.skipA pl.path])
      else if dry then (fs, [RAction.updateA pl.path])
      else (fsWrite fs pl.path (applySteps c pl.steps), [RAction.updateA pl.path])

/-- Apply the patch plans in order, accumulating report lines. -/
def runPatches : List PatchPlan → Bool → FS → FS × List RAction
  | [], _, fs => (fs, [])
  | pl :: rest, dry, fs =>
      let r1 := runPatch pl dry fs
      let r2 := runPatches rest dry r1.1
      (r2.1, r1.2 ++ r2.2)

/-- Guard string `LANG_<NAME>` used by four of the six update blocks. -/
def langGuard (nameU : Str) : Str := ("LANG_").data ++ nameU

/-- Host file `src/lang_config.h`. -/
def configPath (root : FPath) : FPath := root ++ [("src").data, ("lang_config.h").data]

/-- Marker `#define IF_LANG_BOG(x)\n#endif` in `lang_config.h`. -/
def helperMarker : Str := ("#define IF_LANG_BOG(x)\n#endif").data

/-- Helper-macro text inserted after `helperMarker`. -/
def helperAdd (nameU : Str) : Str :=
  ("\n\n#ifdef LANG_").data ++ nameU ++ ("\n#define IF_LANG_").data ++ nameU
    ++ ("(x) x\n#else\n#define IF_LANG_").data ++ nameU ++ ("(x)\n#endif").data

/-- Marker for the forward-declaration insertion in `lang_config.h`. -/
def fwdMarker : Str := ("IF_LANG_BOG(struct LokiBogState;)").data

/-- Forward-declaration text inserted after `fwdMarker`. -/
def fwdAdd (nameU titleS : Str) : Str :=
  ("\nIF_LANG_").data ++ nameU ++ ("(struct Loki").data ++ titleS ++ ("State;)").data

/-- Marker for the state-field insertion in `lang_config.h`. -/
def stateMarker : Str := ("IF_LANG_BOG(struct LokiBogState *bog_state;)").data

/-- State-field text inserted after `stateMarker`. -/
def stateAdd (nameL nameU titleS : Str) : Str :=
  (" \\\n    IF_LANG_").data ++ nameU ++ ("(struct Loki").data ++ titleS
    ++ ("State *").data ++ nameL ++ ("_state;)").data

/-- Marker for the init-declaration insertion in `lang_config.h`. -/
def initDeclMarker : Str := ("IF_LANG_BOG(void bog_loki_lang_init(void);)").data

/-- Init-declaration text inserted after `initDeclMarker`. -/
def initDeclAdd (nameL nameU : Str) : Str :=
  ("\nIF_LANG_").data ++ nameU ++ ("(void ").data ++ nameL ++ ("_loki_lang_init(void);)").data

/-- Marker for the init-call insertion in `lang_config.h`. -/
def initCallMarker : Str := ("IF_LANG_BOG(bog_loki_lang_init();)").data

/-- Init-call text inserted after `initCallMarker`. -/
def initCallAdd (nameL nameU : Str) : Str :=
  (" \\\n    IF_LANG_").data ++ nameU ++ ("(").data ++ nameL ++ ("_loki_lang_init();)").data

/-- Patch plan for `src/lang_config.h` (update block 1). -/
def configPlan (nameL nameU titleS : Str) (root : FPath) : PatchPlan :=
  { path := configPath root
    guardStr := langGuard nameU
    steps :=
      [ ⟨helperMarker, helperMarker ++ helperAdd nameU⟩,
        ⟨fwdMarker, fwdMarker ++ fwdAdd nameU titleS⟩,
        ⟨stateMarker, stateMarker ++ stateAdd nameL nameU titleS⟩,
        ⟨initDeclMarker, initDeclMarker ++ initDeclAdd nameL nameU⟩,
        ⟨initCallMarker, initCallMarker ++ initCallAdd nameL nameU⟩ ] }

/-- Host file `src/lang_dispatch.c`. -/
def dispatchPath (root : FPath) : FPath := root ++ [("src").data, ("lang_dispatch.c").data]

/-- Guard string `"<name>"` (with quotes) checked in `lang_dispatch.c`. -/
def dispatchGuard (nameL : Str) : Str := ("\"").data ++ nameL ++ ("\"").data

/-- Marker `#ifdef LANG_BOG\n#include` in `lang_dispatch.c`. -/
def includeMarker : Str := ("#ifdef LANG_BOG\n#include").data

/-- Include block inserted BEFORE `includeMarker`. -/
def includeAdd (nameL nameU : Str) : Str :=
  ("#ifdef LANG_").data ++ nameU ++ ("\n#include \"lang/").data ++ nameL
    ++ ("/repl.h\"\n#endif\n\n").data

/-- Marker `    return -1;  /* Unknown language */` in `lang_dispatch.c`. -/
def dispatchMarker : Str := ("    return -1;  /* Unknown language */").data

/-- Dispatch case inserted BEFORE `dispatchMarker`. -/
def dispatchAdd (nameL nameU : Str) : Str :=
  ("#ifdef LANG_").data ++ nameU ++ ("\n    if (strcmp(lang, \"").data ++ nameL
    ++ ("\") == 0) \x7b\n        return ").data ++ nameL
    ++ ("_repl_main(argc, argv);\n    \x7d\n#endif\n\n    ").data

/-- Patch plan for `src/lang_dispatch.c` (update block 2); both insertions
go before their markers. -/
def dispatchPlan (nameL nameU : Str) (root : FPath) : PatchPlan :=
  { path := dispatchPath root
    guardStr := dispatchGuard nameL
    steps :=
      [ ⟨includeMarker, includeAdd nameL nameU ++ includeMarker⟩,
        ⟨dispatchMarker, dispatchAdd nameL nameU ++ dispatchMarker⟩ ] }

/-- Host file `CMakeLists.txt` at the project root. -/
def cmakePath (root : FPath) : FPath := root ++ [("CMakeLists.txt").data]

/-- Marker `option(LANG_BOG ...)` in `CMakeLists.txt`. -/
def optionMarker : Str := ("option(LANG_BOG \"Include the Bog language\" ON)").data

/-- Option line inserted after `optionMarker`. -/
def optionAdd (nameU titleS : Str) : Str :=
  ("\noption(LANG_").data ++ nameU ++ (" \"Include the ").data ++ titleS
    ++ (" language\" ON)").data

/-- Marker for the library include block in `CMakeLists.txt`. -/
def cmIncludeMarker : Str :=
  ("if(LANG_BOG)\n    include(psnd_bog_library)\nendif()").data

/-- Library include block inserted after `cmIncludeMarker`. -/
def cmIncludeAdd (nameL nameU : Str) : Str :=
  ("\n\nif(LANG_").data ++ nameU ++ (")\n    include(psnd_").data ++ nameL
    ++ ("_library)\nendif()").data

/-- Patch plan for `CMakeLists.txt` (update block 3). -/
def cmakePlan (nameL nameU titleS : Str) (root : FPath) : PatchPlan :=
  { path := cmakePath root
    guardStr := langGuard nameU
    steps :=
      [ ⟨optionMarker, optionMarker ++ optionAdd nameU titleS⟩,
        ⟨cmIncludeMarker, cmIncludeMarker ++ cmIncludeAdd nameL nameU⟩ ] }

/-- Host file `scripts/cmake/psnd_loki_library.cmake`. -/
def lokiCmakePath (root : FPath) : FPath :=
  root ++ [("scripts").data, ("cmake").data, ("psnd_loki_library.cmake").data]

/-- Marker for the register-source block in `psnd_loki_library.cmake`. -/
def lokiSrcMarker : Str :=
  ("if(LANG_BOG)\n    list(APPEND LOKI_LANG_SOURCES $\x7bPSND_ROOT_DIR\x7d/src/lang/bog/register.c)\nendif()").data

/-- Register-source block inserted after `lokiSrcMarker`. -/
def lokiSrcAdd (nameL nameU : Str) : Str :=
  ("\n\nif(LANG_").data ++ nameU
    ++ (")\n    list(APPEND LOKI_LANG_SOURCES $\x7bPSND_ROOT_DIR\x7d/src/lang/").data
    ++ nameL ++ ("/register.c)\nendif()").data

/-- Marker for the link block in `psnd_loki_library.cmake`. -/
def lokiLinkMarker : Str :=
  ("if(LANG_BOG)\n    list(APPEND LOKI_PUBLIC_LIBS bog)\n    target_compile_definitions(libloki PUBLIC LANG_BOG=1)\nendif()").data

/-- Link block inserted after `lokiLinkMarker`. -/
def lokiLinkAdd (nameL nameU : Str) : Str :=
  ("\n\nif(LANG_").data ++ nameU ++ (")\n    list(APPEND LOKI_PUBLIC_LIBS ").data
    ++ nameL ++ (")\n    target_compile_definitions(libloki PUBLIC LANG_").data
    ++ nameU ++ ("=1)\nendif()").data

/-- Patch plan for `psnd_loki_library.cmake` (update block 4). -/
def lokiPlan (nameL nameU : Str) (root : FPath) : PatchPlan :=
  { path := lokiCmakePath root
    guardStr := langGuard nameU
    steps :=
      [ ⟨lokiSrcMarker, lokiSrcMarker ++ lokiSrcAdd nameL nameU⟩,
        ⟨lokiLinkMarker, lokiLinkMarker ++ lokiLinkAdd nameL nameU⟩ ] }

/-- Host file `scripts/cmake/psnd_psnd_binary.cmake`. -/
def psndCmakePath (root : FPath) : FPath :=
  root ++ [("scripts").data, ("cmake").data, ("psnd_psnd_binary.cmake").data]

/-- Marker for the REPL/dispatch source block in `psnd_psnd_binary.cmake`. -/
def psndMarker : Str :=
  ("if(LANG_BOG)\n    list(APPEND PSND_LANG_SOURCES\n        $\x7bPSND_ROOT_DIR\x7d/src/lang/bog/repl.c\n        $\x7bPSND_ROOT_DIR\x7d/src/lang/bog/dispatch.c\n    )\nendif()").data

/-- Source block inserted after `psndMarker`. -/
def psndAdd (nameL nameU : Str) : Str :=
  ("\n\nif(LANG_").data ++ nameU
    ++ (")\n    list(APPEND PSND_LANG_SOURCES\n        $\x7bPSND_ROOT_DIR\x7d/src/lang/").data
    ++ nameL ++ ("/repl.c\n        $\x7bPSND_ROOT_DIR\x7d/src/lang/").data
    ++ nameL ++ ("/dispatch.c\n    )\nendif()").data

/-- Patch plan for `psnd_psnd_binary.cmake` (update block 5). -/
def psndPlan (nameL nameU : Str) (root : FPath) : PatchPlan :=
  { path := psndCmakePath root
    guardStr := langGuard nameU
    steps := [ ⟨psndMarker, psndMarker ++ psndAdd nameL nameU⟩ ] }

/-- Host file `scripts/cmake/psnd_tests.cmake`. -/
def testsCmakePath (root : FPath) : FPath :=
  root ++ [("scripts").data, ("cmake").data, ("psnd_tests.cmake").data]

/-- Guard string `tests/<name>` checked in `psnd_tests.cmake`. -/
def testsGuard (nameL : Str) : Str := ("tests/").data ++ nameL

/-- Marker for the test-subdirectory block in `psnd_tests.cmake`. -/
def testsMarker : Str :=
  ("if(LANG_BOG)\n    add_subdirectory($\x7bPSND_ROOT_DIR\x7d/tests/bog $\x7bCMAKE_BINARY_DIR\x7d/tests/bog)\nendif()").data

/-- Test-subdirectory block inserted after `testsMarker`. -/
def testsAdd (nameL nameU : Str) : Str :=
  ("\n\nif(LANG_").data ++ nameU
    ++ (")\n    add_subdirectory($\x7bPSND_ROOT_DIR\x7d/tests/").data ++ nameL
    ++ (" $\x7bCMAKE_BINARY_DIR\x7d/tests/").data ++ nameL ++ (")\nendif()").data

/-- Patch plan for `psnd_tests.cmake` (update block 6). -/
def testsPlan (nameL nameU : Str) (root : FPath) : PatchPlan :=
  { path := testsCmakePath root
    guardStr := testsGuard nameL
    steps := [ ⟨testsMarker, testsMarker ++ testsAdd nameL nameU⟩ ] }

/-- The six patch plans of `generate_language`, in execution order. -/
def nlPlans (nameL nameU titleS : Str) (root : FPath) : List PatchPlan :=
  [ configPlan nameL nameU titleS root,
    dispatchPlan nameL nameU root,
    cmakePlan nameL nameU titleS root,
    lokiPlan nameL nameU root,
    psndPlan nameL nameU root,
    testsPlan nameL nameU root ]

/-- `generate_language` of new_lang.py: emit all artifacts (the `impl/`
directory report appears after the first five), then run the six update
blocks. -/
def generateNL (T : Templates) (name : Str) (exts : List Str) (root : FPath)
    (dry : Bool) (fs : FS) : FS × List RAction :=
  let s := buildSubs name exts
  let r1 := emitList dry (nlFilesA T s root) fs
  let r2 := emitList dry (nlFilesB T s root) r1.1
  let r3 := runPatches (nlPlans s.name s.nameU s.title root) dry r2.1
  (r3.1, r1.2 ++ RAction.mkdirA (nlImplDir root s.name) :: r2.2 ++ r3.2)

/-- Result of one full run of a script: the final filesystem, the ordered
report, and the process exit status. -/
structure RunResult where
  fs : FS
  report : List RAction
  exitCode : Nat
deriving Repr, DecidableEq

/-- `get_project_root`: try the script directory's parent, then its
grandparent, looking only for `CMakeLists.txt`; fail otherwise. -/
def getProjectRoot (fs : FS) (scriptDir : FPath) : Option FPath :=
  let root := scriptDir.dropLast
  if fsFileExists fs (root ++ [("CMakeLists.txt").data]) then some root
  else
    let root2 := root.dropLast
    if fsFileExists fs (root2 ++ [("CMakeLists.txt").data]) then some root2
    else none

/-- `main` of new_lang.py: lowercase the argument, validate it, compute the
default extension list, locate the project root, and generate.  Validation
or root-discovery failure exits with status 1 before any generation. -/
def mainNL (T : Templates) (fs : FS) (rawName : Str) (extsOpt : Option (List Str))
    (dry : Bool) (scriptDir : FPath) : RunResult :=
  let name := toLowerStr rawName
  if !(reMatchIdent name) then ⟨fs, [], 1⟩
  else
    let exts := extsOpt.getD [('.' :: name)]
    match getProjectRoot fs scriptDir with
    | none => ⟨fs, [], 1⟩
    | some root =>
        let r := generateNL T name exts root dry fs
        ⟨r.1, r.2, 0⟩

-- ---------------------------------------------------------------------------
-- Model of scripts/new_lang_peg.py
-- ---------------------------------------------------------------------------

/-- Derived name forms and formatted extension strings of new_lang_peg.py
(`Name` duplicates `name` and is omitted). -/
structure PegSubs where
  name : Str
  nameU : Str
  title : Str
  extsC : Str
  extsDispatch : Str
  extCount : Str
  extsLua : Str
  extsSpace : Str
  ext : Str
deriving Repr, DecidableEq

/-- Python `f'.{e.lstrip(".")}'`: one dotted extension without quotes. -/
def fmtExtDot (e : Str) : Str := '.' :: lstripDot e

/-- `" ".join(f'.{e.lstrip(".")}' ...)`: the space-separated extension list. -/
def extsSpaceFmt (exts : List Str) : Str :=
  List.intercalate ((" ").data) (exts.map fmtExtDot)

/-- Decimal rendering of a natural number, for `str(len(extensions))`. -/
def natRepr (n : Nat) : Str := (Nat.repr n).data

/-- Build the substitution record exactly as peg `generate_language` does
(`extensions_dispatch` is formatted identically to `extensions_lua`). -/
def buildPegSubs (name : Str) (exts : List Str) : PegSubs :=
  { name := toLowerStr name
    nameU := toUpperStr name
    title := toTitleStr name
    extsC := extsCFmt exts
    extsDispatch := extsLuaFmt exts
    extCount := natRepr exts.length
    extsLua := extsLuaFmt exts
    extsSpace := extsSpaceFmt exts
    ext := primaryExt exts }

/-- The fixed template catalog of new_lang_peg.py; bodies are kept
parametric since no peg control flow reads generated content back. -/
structure PegTemplates where
  grammarPeg : PegSubs → Str
  runtimeH : PegSubs → Str
  runtimeC : PegSubs → Str
  registerH : PegSubs → Str
  registerC : PegSubs → Str
  replC : PegSubs → Str
  dispatchC : PegSubs → Str
  cmakeLang : PegSubs → Str
  testCMake : PegSubs → Str
  testParser : PegSubs → Str
  docReadme : PegSubs → Str
  syntaxLua : PegSubs → Str
  exampleT : PegSubs → Str

/-- Per-plugin directory `source/langs/<name>` of the modular layout. -/
def pegLangDir (root : FPath) (nameL : Str) : FPath :=
  root ++ [("source").data, ("langs").data, nameL]

/-- The thirteen artifacts created by peg `generate_language`, in order. -/
def pegFiles (T : PegTemplates) (s : PegSubs) (root : FPath) : List (FPath × Str) :=
  [ (pegLangDir root s.name ++ [("impl").data, s.name ++ ("_grammar.peg").data],
      T.grammarPeg s),
    (pegLangDir root s.name ++ [("impl").data, s.name ++ ("_runtime.h").data],
      T.runtimeH s),
    (pegLangDir root s.name ++ [("impl").data, s.name ++ ("_runtime.c").data],
      T.runtimeC s),
    (pegLangDir root s.name ++ [("register.h").data], T.registerH s),
    (pegLangDir root s.name ++ [("register.c").data], T.registerC s),
    (pegLangDir root s.name ++ [("repl.c").data], T.replC s),
    (pegLangDir root s.name ++ [("dispatch.c").data], T.dispatchC s),
    (pegLangDir root s.name ++ [("CMakeLists.txt").data], T.cmakeLang s),
    (pegLangDir root s.name ++ [("tests").data, ("CMakeLists.txt").data], T.testCMake s),
    (pegLangDir root s.name ++ [("tests").data, ("test_parser.c").data], T.testParser s),
    (pegLangDir root s.name ++ [("README.md").data], T.docReadme s),
    (root ++ [(".psnd").data, ("languages").data, s.name ++ (".lua").data], T.syntaxLua s),
    (pegLangDir root s.name ++ [("examples").data, ("melody.").data ++ s.ext],
      T.exampleT s) ]

/-- Peg `generate_language`: on a real run an already-existing language
directory aborts with `sys.exit(1)` before any write; a dry run skips that
check entirely and reports every create. -/
def generatePeg (T : PegTemplates) (name : Str) (exts : List Str) (root : FPath)
    (dry : Bool) (fs : FS) : RunResult :=
  let s := buildPegSubs name exts
  if fsPathExists fs (pegLangDir root s.name) && !dry then ⟨fs, [], 1⟩
  else
    let r := emitList dry (pegFiles T s root) fs
    ⟨r.1, r.2, 0⟩

/-- The reserved built-in language names rejected by peg `main`. -/
def pegReserved : List Str :=
  [("alda").data, ("joy").data, ("bog").data, ("tr7").data, ("scheme").data]

/-- `main` of new_lang_peg.py: lowercase, validate, reject reserved names,
locate the project root, and generate. -/
def mainPeg (T : PegTemplates) (fs : FS) (rawName : Str) (extsOpt : Option (List Str))
    (dry : Bool) (scriptDir : FPath) : RunResult :=
  let name := toLowerStr rawName
  if !(reMatchIdent name) then ⟨fs, [], 1⟩
  else if pegReserved.contains name then ⟨fs, [], 1⟩
  else
    let exts := extsOpt.getD [('.' :: name)]
    match getProjectRoot fs scriptDir with
    | none => ⟨fs, [], 1⟩
    | some root => generatePeg T name exts root dry fs

-- ---------------------------------------------------------------------------
-- Emission with injected write failures (for the error-recovery claim)
-- ---------------------------------------------------------------------------

/-- Real-run emission where writing to a path in `bad` raises an OSError.
`create_file` has no handler and prints only after a successful write, so
the first failure aborts the remaining emission with nothing reported for
it; the third component is the path of the raised failure, if any. -/
def emitListF (bad : FPath → Bool) :
    List (FPath × Str) → FS → FS × List RAction × Option FPath
  | [], fs => (fs, [], none)
  | (p, c) :: rest, fs =>
      if bad p then (fs, [], some p)
      else
        let r := emitListF bad rest (fsWrite fs p c)
        (r.1, RAction.createA p :: r.2.1, r.2.2)

-- ---------------------------------------------------------------------------
-- Filesystem and emission lemmas
-- ---------------------------------------------------------------------------

theorem fsRead_fsWrite_self (fs : FS) (p : FPath) (c : Str) :
    fsRead (fsWrite fs p c) p = some c := by
  induction fs with
  | nil => simp [fsWrite, fsRead]
  | cons e rest ih =>
    obtain ⟨q, d⟩ := e
    by_cases hq : q = p
    · simp [fsWrite, fsRead, hq]
    · simp [fsWrite, fsRead, hq, ih]

theorem fsRead_fsWrite_ne (fs : FS) (p q : FPath) (c : Str) (h : q ≠ p) :
    fsRead (fsWrite fs p c) q = fsRead fs q := by
  have hpq : p ≠ q := Ne.symm h
  induction fs with
  | nil => simp [fsWrite, fsRead, hpq]
  | cons e rest ih =>
    obtain ⟨r, d⟩ := e
    by_cases hr : r = p
    · subst hr
      simp [fsWrite, fsRead, hpq]
    · simp [fsWrite, fsRead, hr, ih]

/-- Overwriting a file with the bytes it already holds leaves the
association list unchanged. -/
theorem fsWrite_same (fs : FS) (p : FPath) (c : Str) (h : fsRead fs p = some c) :
    fsWrite fs p c = fs := by
  induction fs with
  | nil => simp [fsRead] at h
  | cons e rest ih =>
    obtain ⟨q, d⟩ := e
    by_cases hq : q = p
    · subst hq
      have hd : some d = some c := by simpa [fsRead] using h
      simp [fsWrite, Option.some.inj hd]
    · have h' : fsRead rest p = some c := by simpa [fsRead, hq] using h
      simp [fsWrite, hq, ih h']

/-- Perform a list of writes in order. -/
def fsWriteAll : List (FPath × Str) → FS → FS
  | [], fs => fs
  | (p, c) :: rest, fs => fsWriteAll rest (fsWrite fs p c)

/-- The content of the last write to `q` in a write list, if any. -/
def lastWrite : List (FPath × Str) → FPath → Option Str
  | [], _ => none
  | (p, c) :: rest, q =>
      match lastWrite rest q with
      | some d => some d
      | none => if p = q then some c else none

theorem fsRead_fsWriteAll (l : List (FPath × Str)) (fs : FS) (q : FPath) :
    fsRead (fsWriteAll l fs) q =
      match lastWrite l q with
      | some c => some c
      | none => fsRead fs q := by
  induction l generalizing fs with
  | nil => simp [fsWriteAll, lastWrite]
  | cons e rest ih =>
    obtain ⟨p, c⟩ := e
    show fsRead (fsWriteAll rest (fsWrite fs p c)) q = _
    rw [ih]
    cases hlw : lastWrite rest q with
    | some d => simp [lastWrite, hlw]
    | none =>
      by_cases hp : p = q
      · subst hp
        simp [lastWrite, hlw, fsRead_fsWrite_self]
      · simp [lastWrite, hlw, hp, fsRead_fsWrite_ne fs p q c (fun he => hp he.symm)]

theorem lastWrite_none_of_absent (l : List (FPath × Str)) (q : FPath)
    (h : ∀ pc ∈ l, pc.1 ≠ q) : lastWrite l q = none := by
  induction l with
  | nil => rfl
  | cons e rest ih =>
    obtain ⟨p, c⟩ := e
    have hp : p ≠ q := h (p, c) (by simp)
    have hr : lastWrite rest q = none := ih (fun pc hpc => h pc (by simp [hpc]))
    simp [lastWrite, hr, hp]

theorem fsRead_fsWriteAll_absent (l : List (FPath × Str)) (fs : FS) (q : FPath)
    (h : ∀ pc ∈ l, pc.1 ≠ q) : fsRead (fsWriteAll l fs) q = fsRead fs q := by
  rw [fsRead_fsWriteAll, lastWrite_none_of_absent l q h]

theorem emitList_real (l : List (FPath × Str)) (fs : FS) :
    emitList false l fs = (fsWriteAll l fs, l.map (fun pc => RAction.createA pc.1)) := by
  induction l generalizing fs with
  | nil => rfl
  | cons e rest ih =>
    obtain ⟨p, c⟩ := e
    simp [emitList, createFileA, fsWriteAll, ih]

theorem emitList_dry (l : List (FPath × Str)) (fs : FS) :
    emitList true l fs = (fs, l.map (fun pc => RAction.createA pc.1)) := by
  induction l generalizing fs with
  | nil => rfl
  | cons e rest ih =>
    obtain ⟨p, c⟩ := e
    simp [emitList, createFileA, ih]

-- ---------------------------------------------------------------------------
-- Patch-plan lemmas
-- ---------------------------------------------------------------------------

theorem runPatch_other (pl : PatchPlan) (dry : Bool) (fs : FS) (q : FPath)
    (h : q ≠ pl.path) : fsRead (runPatch pl dry fs).1 q = fsRead fs q := by
  unfold runPatch
  cases hr : fsRead fs pl.path with
  | none => rfl
  | some c =>
    by_cases hg : containsSub c pl.guardStr = true
    · simp [hg]
    · cases dry with
      | true => simp [hg]
      | false =>
        simp only [Bool.not_eq_true] at hg
        simp [hg, fsRead_fsWrite_ne fs pl.path q _ h]

theorem runPatches_other (plans : List PatchPlan) (dry : Bool) (fs : FS) (q : FPath)
    (h : ∀ pl ∈ plans, q ≠ pl.path) :
    fsRead (runPatches plans dry fs).1 q = fsRead fs q := by
  induction plans generalizing fs with
  | nil => rfl
  | cons pl rest ih =>
    show fsRead (runPatches rest dry (runPatch pl dry fs).1).1 q = fsRead fs q
    rw [ih _ (fun pl' hpl' => h pl' (by simp [hpl'])),
      runPatch_other pl dry fs q (h pl (by simp))]

/-- The content a patch leaves at its own path, as a function of what it
read there. -/
def patchResult (pl : PatchPlan) (dry : Bool) : Option Str → Option Str
  | none => none
  | some c =>
      if containsSub c pl.guardStr then some c
      else if dry then some c
      else some (applySteps c pl.steps)

theorem runPatch_read_self (pl : PatchPlan) (dry : Bool) (fs : FS) :
    fsRead (runPatch pl dry fs).1 pl.path = patchResult pl dry (fsRead fs pl.path) := by
  unfold runPatch patchResult
  cases hr : fsRead fs pl.path with
  | none => simp [hr]
  | some c =>
    by_cases hg : containsSub c pl.guardStr = true
    · simp [hg, hr]
    · cases dry with
      | true => simp [hg, hr]
      | false =>
        simp only [Bool.not_eq_true] at hg
        simp [hg, hr, fsRead_fsWrite_self]

theorem runPatches_read_mem (plans : List PatchPlan) (dry : Bool) (fs : FS)
    (pl : PatchPlan) (hmem : pl ∈ plans)
    (hnodup : (plans.map PatchPlan.path).Nodup) :
    fsRead (runPatches plans dry fs).1 pl.path =
      patchResult pl dry (fsRead fs pl.path) := by
  induction plans generalizing fs with
  | nil => simp at hmem
  | cons pl0 rest ih =>
    rcases List.mem_cons.mp hmem with heq | hmem'
    · subst heq
      show fsRead (runPatches rest dry (runPatch pl dry fs).1).1 pl.path = _
      have hothers : ∀ pl' ∈ rest, pl.path ≠ pl'.path := by
        intro pl' hpl' heq
        simp only [List.map_cons, List.nodup_cons] at hnodup
        exact hnodup.1 (heq ▸ List.mem_map_of_mem PatchPlan.path hpl')
      rw [runPatches_other rest dry _ pl.path hothers, runPatch_read_self]
    · have hne : pl.path ≠ pl0.path := by
        intro heq
        simp only [List.map_cons, List.nodup_cons] at hnodup
        exact hnodup.1 (heq ▸ List.mem_map_of_mem PatchPlan.path hmem')
      show fsRead (runPatches rest dry (runPatch pl0 dry fs).1).1 pl.path = _
      have hnodup' : (rest.map PatchPlan.path).Nodup := by
        simp only [List.map_cons, List.nodup_cons] at hnodup
        exact hnodup.2
      rw [ih _ hmem' hnodup', runPatch_other pl0 dry fs pl.path hne]

theorem runPatches_all_skip (plans : List PatchPlan) (dry : Bool) (fs : FS)
    (h : ∀ pl ∈ plans, ∃ c, fsRead fs pl.path = some c ∧
      containsSub c pl.guardStr = true) :
    runPatches plans dry fs = (fs, plans.map (fun pl => RAction.skipA pl.path)) := by
  induction plans with
  | nil => rfl
  | cons pl rest ih =>
    obtain ⟨c, hc, hg⟩ := h pl (by simp)
    have h1 : runPatch pl dry fs = (fs, [RAction.skipA pl.path]) := by
      unfold runPatch
      rw [hc]
      simp [hg]
    have h2 : runPatches rest dry fs = (fs, rest.map (fun pl => RAction.skipA pl.path)) :=
      ih (fun pl' hpl' => h pl' (by simp [hpl']))
    show ((runPatches rest dry (runPatch pl dry fs).1).1,
        (runPatch pl dry fs).2 ++ (runPatches rest dry (runPatch pl dry fs).1).2) = _
    rw [h1]
    simp [h2]

-- ---------------------------------------------------------------------------
-- Concrete template instances used by closed witnesses and counterexamples
-- (template bodies are irrelevant to every property below)
-- ---------------------------------------------------------------------------

/-- A concrete `Templates` instance rendering every parametric body empty. -/
def nlT0 : Templates :=
  { registerH := fun _ => []
    registerC := fun _ => []
    replH := fun _ => []
    replC := fun _ => []
    dispatchC := fun _ => []
    parserH := fun _ => []
    parserC := fun _ => []
    runtimeH := fun _ => []
    runtimeC := fun _ => []
    testCMake := fun _ => []
    testParser := fun _ => []
    docReadme := fun _ => []
    syntaxLua := fun _ => [] }

/-- A concrete `PegTemplates` instance rendering every body empty. -/
def pegT0 : PegTemplates :=
  { grammarPeg := fun _ => []
    runtimeH := fun _ => []
    runtimeC := fun _ => []
    registerH := fun _ => []
    registerC := fun _ => []
    replC := fun _ => []
    dispatchC := fun _ => []
    cmakeLang := fun _ => []
    testCMake := fun _ => []
    testParser := fun _ => []
    docReadme := fun _ => []
    syntaxLua := fun _ => []
    exampleT := fun _ => [] }

-- ---------------------------------------------------------------------------
-- Claim C9: project-root discovery
-- ---------------------------------------------------------------------------

/-- C9 counterexample: the claim says discovery walks upward through ALL
ancestor directories until the marker is found.  In the code only the
script directory's parent and grandparent are tried: here the ancestor `a`
of script directory `a/b/c/d` contains `CMakeLists.txt`, yet discovery
fails. -/
theorem c9_counterexample :
    getProjectRoot [([("a").data, ("CMakeLists.txt").data], [])]
        [("a").data, ("b").data, ("c").data, ("d").data] = none ∧
    fsFileExists [([("a").data, ("CMakeLists.txt").data], [])]
        ([("a").data] ++ [("CMakeLists.txt").data]) = true ∧
    segPre [("a").data] [("a").data, ("b").data, ("c").data, ("d").data] = true := by
  decide

/-- C9 amended: project-root discovery tries exactly the script directory's
parent, then its grandparent; it returns the first of those two that
contains `CMakeLists.txt` and fails when neither does (it never looks
further up). -/
theorem c9_amended (fs : FS) (scriptDir : FPath) :
    (fsFileExists fs (scriptDir.dropLast ++ [("CMakeLists.txt").data]) = true →
      getProjectRoot fs scriptDir = some scriptDir.dropLast) ∧
    (fsFileExists fs (scriptDir.dropLast ++ [("CMakeLists.txt").data]) = false →
      fsFileExists fs (scriptDir.dropLast.dropLast ++ [("CMakeLists.txt").data]) = true →
      getProjectRoot fs scriptDir = some scriptDir.dropLast.dropLast) ∧
    (fsFileExists fs (scriptDir.dropLast ++ [("CMakeLists.txt").data]) = false →
      fsFileExists fs (scriptDir.dropLast.dropLast ++ [("CMakeLists.txt").data]) = false →
      getProjectRoot fs scriptDir = none) := by
  refine ⟨fun h1 => ?_, fun h1 h2 => ?_, fun h1 h2 => ?_⟩ <;>
    simp [getProjectRoot, h1]
  · simp [h2]
  · simp [h2]

/-- C9 amended witness at a concrete filesystem: the parent of `a/b` holds
the marker and is returned. -/
theorem c9_amended_witness :
    getProjectRoot [([("a").data, ("CMakeLists.txt").data], [])]
        [("a").data, ("b").data] = some [("a").data] :=
  (c9_amended [([("a").data, ("CMakeLists.txt").data], [])]
      [("a").data, ("b").data]).1 (by decide)

-- ---------------------------------------------------------------------------
-- Claim C10: reserved names in new_lang_peg.py
-- ---------------------------------------------------------------------------

/-- C10: every reserved identifier (`alda`, `joy`, `bog`, `tr7`, `scheme`)
matches the validity pattern, yet peg `main` exits with status 1 before any
filesystem mutation (the result filesystem is the input one and no action
is reported). -/
theorem c10_reserved_rejected (T : PegTemplates) (fs : FS)
    (extsOpt : Option (List Str)) (dry : Bool) (scriptDir : FPath) (name : Str)
    (h : name ∈ pegReserved) :
    reMatchIdent name = true ∧
      mainPeg T fs name extsOpt dry scriptDir = ⟨fs, [], 1⟩ := by
  have key : ∀ nm : Str, toLowerStr nm = nm → reMatchIdent nm = true →
      nm ∈ pegReserved →
      reMatchIdent nm = true ∧ mainPeg T fs nm extsOpt dry scriptDir = ⟨fs, [], 1⟩ := by
    intro nm h1 h2 h3
    refine ⟨h2, ?_⟩
    simp [mainPeg, h1, h2, h3]
  have hmem := h
  simp only [pegReserved, List.mem_cons, List.not_mem_nil, or_false] at h
  rcases h with rfl | rfl | rfl | rfl | rfl <;>
    exact key _ (by decide) (by decide) hmem

/-- C10 witness: the concrete reserved name `alda` on an empty filesystem. -/
theorem c10_reserved_rejected_witness :
    reMatchIdent (("alda").data) = true ∧
      mainPeg pegT0 [] (("alda").data) none false [] = ⟨[], [], 1⟩ :=
  c10_reserved_rejected pegT0 [] none false [] (("alda").data) (by decide)

-- ---------------------------------------------------------------------------
-- Claim C5: fail-fast on validation / root-discovery failure
-- ---------------------------------------------------------------------------

/-- C5: when identifier validation fails (on the lowercased argument) or
project-root discovery fails, new_lang.py exits with status 1, reports no
action, and returns the filesystem unchanged: no file is created,
overwritten, or patched. -/
theorem c5_failfast (T : Templates) (fs : FS) (rawName : Str)
    (extsOpt : Option (List Str)) (dry : Bool) (scriptDir : FPath)
    (h : reMatchIdent (toLowerStr rawName) = false ∨
      getProjectRoot fs scriptDir = none) :
    mainNL T fs rawName extsOpt dry scriptDir = ⟨fs, [], 1⟩ := by
  cases h with
  | inl h => simp [mainNL, h]
  | inr h =>
    cases hv : reMatchIdent (toLowerStr rawName) with
    | false => simp [mainNL, hv]
    | true => simp [mainNL, hv, h]

/-- C5 witness: the malformed name `foo-bar` on an empty filesystem. -/
theorem c5_failfast_witness :
    mainNL nlT0 [] (("foo-bar").data) none false [] = ⟨[], [], 1⟩ :=
  c5_failfast nlT0 [] (("foo-bar").data) none false [] (Or.inl (by decide))

-- ---------------------------------------------------------------------------
-- Claim C4: identifier validation
-- ---------------------------------------------------------------------------

/-- C4 counterexample: the claim says `"Foo"` is rejected with a validation
error and zero filesystem mutation.  The code lowercases the argument
BEFORE matching `^[a-z][a-z0-9]*$`, so `"Foo"` passes validation and a real
run proceeds to mutate the filesystem (here `src/lang/foo/register.h`
appears) with exit status 0. -/
theorem c4_counterexample :
    reMatchIdent (toLowerStr (("Foo").data)) = true ∧
    (mainNL nlT0 [([("r").data, ("CMakeLists.txt").data], [])] (("Foo").data)
        none false [("r").data, ("s").data]).exitCode = 0 ∧
    fsRead (mainNL nlT0 [([("r").data, ("CMakeLists.txt").data], [])] (("Foo").data)
        none false [("r").data, ("s").data]).fs
      (nlLangDir [("r").data] (("foo").data) ++ [("register.h").data]) = some [] ∧
    fsRead [(([("r").data, ("CMakeLists.txt").data], []) : FPath × Str)]
      (nlLangDir [("r").data] (("foo").data) ++ [("register.h").data]) = none := by
  decide

/-- C4 amended: validation applies to the LOWERCASED argument.  Any argument
whose lowercased form fails `^[a-z][a-z0-9]*$` is rejected with exit status
1 and zero filesystem mutation; `"Foo"` is accepted (as `foo`), `"1bar"`,
`""` and `"foo-bar"` are rejected, and `"drum"` and `"a1"` are accepted. -/
theorem c4_amended (T : Templates) (fs : FS) (extsOpt : Option (List Str))
    (dry : Bool) (scriptDir : FPath) :
    (∀ raw : Str, reMatchIdent (toLowerStr raw) = false →
       mainNL T fs raw extsOpt dry scriptDir = ⟨fs, [], 1⟩) ∧
    reMatchIdent (toLowerStr (("Foo").data)) = true ∧
    reMatchIdent (toLowerStr (("1bar").data)) = false ∧
    reMatchIdent (toLowerStr (("").data)) = false ∧
    reMatchIdent (toLowerStr (("foo-bar").data)) = false ∧
    reMatchIdent (toLowerStr (("drum").data)) = true ∧
    reMatchIdent (toLowerStr (("a1").data)) = true := by
  refine ⟨fun raw h => ?_, by decide, by decide, by decide, by decide, by decide, by decide⟩
  simp [mainNL, h]

/-- C4 amended witness: the rejected argument `1bar` leaves an empty
filesystem untouched and exits 1. -/
theorem c4_amended_witness :
    mainNL nlT0 [] (("1bar").data) none false [] = ⟨[], [], 1⟩ :=
  (c4_amended nlT0 [] none false []).1 (("1bar").data) (by decide)

-- ---------------------------------------------------------------------------
-- Claim C6: dry-run equivalence
-- ---------------------------------------------------------------------------

/-- C6 counterexample: when the plugin directory already exists, a peg
dry run skips the existence check (the code tests `lang_dir.exists() and
not dry_run`) and reports all thirteen creates, while a real run from the
same state exits with status 1 and reports nothing — the reported action
lists differ. -/
theorem c6_counterexample :
    (generatePeg pegT0 (("foo").data) [('.' :: ("foo").data)] [("r").data] true
        [((pegLangDir [("r").data] (("foo").data) ++ [("x").data]), [])]).report ≠
      (generatePeg pegT0 (("foo").data) [('.' :: ("foo").data)] [("r").data] false
        [((pegLangDir [("r").data] (("foo").data) ++ [("x").data]), [])]).report ∧
    (generatePeg pegT0 (("foo").data) [('.' :: ("foo").data)] [("r").data] false
        [((pegLangDir [("r").data] (("foo").data) ++ [("x").data]), [])]).exitCode = 1 ∧
    (generatePeg pegT0 (("foo").data) [('.' :: ("foo").data)] [("r").data] true
        [((pegLangDir [("r").data] (("foo").data) ++ [("x").data]), [])]).fs =
      [((pegLangDir [("r").data] (("foo").data) ++ [("x").data]), [])] := by
  decide

/-- C6 amended: provided the plugin directory does not already exist, the
ordered (action kind, path) report of a peg dry run equals that of a real
run from the same state, and the dry run leaves the filesystem
byte-identical to the initial one. -/
theorem c6_amended (T : PegTemplates) (name : Str) (exts : List Str) (root : FPath)
    (fs : FS)
    (h : fsPathExists fs (pegLangDir root (toLowerStr name)) = false) :
    (generatePeg T name exts root true fs).report =
      (generatePeg T name exts root false fs).report ∧
    (generatePeg T name exts root true fs).fs = fs := by
  have hexists : fsPathExists fs (pegLangDir root (buildPegSubs name exts).name) = false := h
  have hdry : generatePeg T name exts root true fs =
      ⟨fs, (pegFiles T (buildPegSubs name exts) root).map (fun pc => RAction.createA pc.1), 0⟩ := by
    simp only [generatePeg]
    simp [emitList_dry]
  have hreal : generatePeg T name exts root false fs =
      ⟨fsWriteAll (pegFiles T (buildPegSubs name exts) root) fs,
        (pegFiles T (buildPegSubs name exts) root).map (fun pc => RAction.createA pc.1), 0⟩ := by
    simp only [generatePeg]
    rw [hexists]
    simp [emitList_real]
  rw [hdry, hreal]
  exact ⟨rfl, rfl⟩

/-- C6 amended witness: a concrete empty filesystem, where the directory
is absent. -/
theorem c6_amended_witness :
    (generatePeg pegT0 (("foo").data) [('.' :: ("foo").data)] [("r").data] true []).report =
      (generatePeg pegT0 (("foo").data) [('.' :: ("foo").data)] [("r").data] false []).report ∧
    (generatePeg pegT0 (("foo").data) [('.' :: ("foo").data)] [("r").data] true []).fs = [] :=
  c6_amended pegT0 (("foo").data) [('.' :: ("foo").data)] [("r").data] [] (by decide)

-- ---------------------------------------------------------------------------
-- Claim C8: extension normalization
-- ---------------------------------------------------------------------------

theorem lstripDot_no_dot (e : Str) : (lstripDot e).head? ≠ some '.' := by
  induction e with
  | nil => simp [lstripDot]
  | cons c rest ih =>
    by_cases hc : c = '.'
    · simpa [lstripDot, hc] using ih
    · simp [lstripDot, hc]

/-- C8: each supplied extension is stripped of every leading dot and
re-prefixed with exactly one (`fmtExtQ e` is a quoted dot followed by a
dot-free suffix), so `"bar"` and `".bar"` yield identical substitution
records in both generators, and hence identical content for every rendered
artifact of every template catalog. -/
theorem c8_ext_normalization (name : Str) (e : Str) :
    fmtExtQ e = ("\"").data ++ ('.' :: lstripDot e) ++ ("\"").data ∧
    (lstripDot e).head? ≠ some '.' ∧
    buildSubs name [("bar").data] = buildSubs name [(".bar").data] ∧
    buildPegSubs name [("bar").data] = buildPegSubs name [(".bar").data] ∧
    (∀ (T : Templates) (root : FPath),
      nlFilesAll T (buildSubs name [("bar").data]) root =
        nlFilesAll T (buildSubs name [(".bar").data]) root) ∧
    (∀ (T : PegTemplates) (root : FPath),
      pegFiles T (buildPegSubs name [("bar").data]) root =
        pegFiles T (buildPegSubs name [(".bar").data]) root) := by
  have h1 : extsCFmt [("bar").data] = extsCFmt [(".bar").data] := by decide
  have h2 : extsLuaFmt [("bar").data] = extsLuaFmt [(".bar").data] := by decide
  have h3 : primaryExt [("bar").data] = primaryExt [(".bar").data] := by decide
  have h4 : extsSpaceFmt [("bar").data] = extsSpaceFmt [(".bar").data] := by decide
  have hsubs : buildSubs name [("bar").data] = buildSubs name [(".bar").data] := by
    simp [buildSubs, h1, h2, h3]
  have hpeg : buildPegSubs name [("bar").data] = buildPegSubs name [(".bar").data] := by
    simp [buildPegSubs, h1, h2, h3, h4]
  refine ⟨?_, lstripDot_no_dot e, hsubs, hpeg,
    fun T root => by rw [hsubs], fun T root => by rw [hpeg]⟩
  simp [fmtExtQ]

-- ---------------------------------------------------------------------------
-- Claim C7: behavior on an individual artifact write failure
-- ---------------------------------------------------------------------------

/-- C7 counterexample: the claim says a failed artifact write is reported
with its path and the run continues with the remaining artifacts.
`create_file` has no exception handler, so when the very first write
(`src/lang/foo/register.h`) raises, the run terminates at once: nothing is
written, no remaining artifact is attempted, and no report line is
produced. -/
theorem c7_counterexample :
    emitListF
        (fun p => decide (p = nlLangDir [("r").data] (("foo").data) ++ [("register.h").data]))
        (nlFilesAll nlT0 (buildSubs (("foo").data) [('.' :: ("foo").data)]) [("r").data])
        [] =
      ([], [], some (nlLangDir [("r").data] (("foo").data) ++ [("register.h").data])) := by
  decide

/-- C7 amended: an artifact write failure is an unhandled exception that
terminates the run immediately: artifacts before the failing one are
written and reported, while the failing artifact and every later one are
not attempted and the failure path propagates out of the run. -/
theorem c7_amended (bad : FPath → Bool) (pre : List (FPath × Str)) (p : FPath)
    (c : Str) (post : List (FPath × Str)) (fs : FS)
    (hpre : ∀ pc ∈ pre, bad pc.1 = false) (hp : bad p = true) :
    emitListF bad (pre ++ (p, c) :: post) fs =
      (fsWriteAll pre fs, pre.map (fun pc => RAction.createA pc.1), some p) := by
  induction pre generalizing fs with
  | nil =>
    simp only [List.nil_append, fsWriteAll, List.map_nil]
    show (if bad p = true then (fs, [], some p) else _) = (fs, [], some p)
    rw [hp]
    simp
  | cons e rest ih =>
    obtain ⟨q, d⟩ := e
    have hq : bad q = false := hpre (q, d) (by simp)
    have hrest : ∀ pc ∈ rest, bad pc.1 = false := fun pc hpc => hpre pc (by simp [hpc])
    show (if bad q = true then ((fs : FS), ([] : List RAction), some q)
          else
            ((emitListF bad (rest ++ (p, c) :: post) (fsWrite fs q d)).1,
             RAction.createA q :: (emitListF bad (rest ++ (p, c) :: post) (fsWrite fs q d)).2.1,
             (emitListF bad (rest ++ (p, c) :: post) (fsWrite fs q d)).2.2)) = _
    rw [hq]
    simp only [Bool.false_eq_true, if_false]
    rw [ih (fsWrite fs q d) hrest]
    simp [fsWriteAll]

/-- C7 amended witness: with the fifth artifact failing, the first four
are written and reported, and the run aborts there. -/
theorem c7_amended_witness :
    emitListF
        (fun p => decide (p = nlLangDir [("r").data] (("foo").data) ++ [("dispatch.c").data]))
        ((nlFilesA nlT0 (buildSubs (("foo").data) [('.' :: ("foo").data)]) [("r").data]).take 4 ++
          (nlLangDir [("r").data] (("foo").data) ++ [("dispatch.c").data], []) ::
            nlFilesB nlT0 (buildSubs (("foo").data) [('.' :: ("foo").data)]) [("r").data])
        [] =
      (fsWriteAll ((nlFilesA nlT0 (buildSubs (("foo").data) [('.' :: ("foo").data)]) [("r").data]).take 4) [],
        ((nlFilesA nlT0 (buildSubs (("foo").data) [('.' :: ("foo").data)]) [("r").data]).take 4).map
          (fun pc => RAction.createA pc.1),
        some (nlLangDir [("r").data] (("foo").data) ++ [("dispatch.c").data])) :=
  c7_amended _ _ _ _ _ [] (by decide) (by decide)

-- ---------------------------------------------------------------------------
-- Claim C3: host file missing the expected anchor
-- ---------------------------------------------------------------------------

/-- C3 counterexample: the claim says a host file that exists but lacks the
anchor makes the patch fail with `AnchorNotFoundError` and the run exit
non-zero.  The code has no such error: with `src/lang_dispatch.c` present
but containing no anchor, the run completes with exit status 0 and the host
file's bytes are unchanged. -/
theorem c3_counterexample :
    (mainNL nlT0
        [([("r").data, ("CMakeLists.txt").data], []),
         (dispatchPath [("r").data], ("no anchors here").data)]
        (("foo").data) none false [("r").data, ("s").data]).exitCode = 0 ∧
    fsRead (mainNL nlT0
        [([("r").data, ("CMakeLists.txt").data], []),
         (dispatchPath [("r").data], ("no anchors here").data)]
        (("foo").data) none false [("r").data, ("s").data]).fs
      (dispatchPath [("r").data]) = some (("no anchors here").data) := by
  decide

/-- C3 amended: when a host file exists but contains neither the guard nor
any of its anchors, the update block does NOT fail: every substitution is a
no-op, the file is rewritten with byte-identical content and reported as
updated, and a run whose validation and root discovery succeed always exits
with status 0 (no anchor-related error exists in the code). -/
theorem c3_amended (nameL nameU titleS : Str) (root : FPath) (pl : PatchPlan)
    (hpl : pl ∈ nlPlans nameL nameU titleS root) (fs : FS) (c : Str)
    (hread : fsRead fs pl.path = some c)
    (hg : containsSub c pl.guardStr = false)
    (hanchors : ∀ st ∈ pl.steps, containsSub c st.pat = false) :
    runPatch pl false fs = (fsWrite fs pl.path c, [RAction.updateA pl.path]) ∧
    fsRead (runPatch pl false fs).1 pl.path = some c ∧
    (∀ (T : Templates) (fs2 : FS) (rawName : Str) (extsOpt : Option (List Str))
       (dry : Bool) (sd : FPath) (root2 : FPath),
       reMatchIdent (toLowerStr rawName) = true →
       getProjectRoot fs2 sd = some root2 →
       (mainNL T fs2 rawName extsOpt dry sd).exitCode = 0) := by
  have h2 : applySteps c pl.steps = c := applySteps_no_occ pl.steps c hanchors
  have h1 : runPatch pl false fs = (fsWrite fs pl.path c, [RAction.updateA pl.path]) := by
    unfold runPatch
    rw [hread]
    simp [hg, h2]
  refine ⟨h1, ?_, ?_⟩
  · rw [h1]
    exact fsRead_fsWrite_self fs pl.path c
  · intro T fs2 rawName extsOpt dry sd root2 hv hroot
    simp [mainNL, hv, hroot]

/-- C3 amended witness: the dispatch plan for plugin `foo` on a host file
with no anchors. -/
theorem c3_amended_witness :
    runPatch (dispatchPlan (("foo").data) (("FOO").data) [("r").data]) false
        [(dispatchPath [("r").data], ("no anchors here").data)] =
      (fsWrite [(dispatchPath [("r").data], ("no anchors here").data)]
        (dispatchPlan (("foo").data) (("FOO").data) [("r").data]).path
        (("no anchors here").data),
       [RAction.updateA (dispatchPlan (("foo").data) (("FOO").data) [("r").data]).path]) ∧
    fsRead (runPatch (dispatchPlan (("foo").data) (("FOO").data) [("r").data]) false
        [(dispatchPath [("r").data], ("no anchors here").data)]).1
      (dispatchPlan (("foo").data) (("FOO").data) [("r").data]).path =
      some (("no anchors here").data) ∧
    (∀ (T : Templates) (fs2 : FS) (rawName : Str) (extsOpt : Option (List Str))
       (dry : Bool) (sd : FPath) (root2 : FPath),
       reMatchIdent (toLowerStr rawName) = true →
       getProjectRoot fs2 sd = some root2 →
       (mainNL T fs2 rawName extsOpt dry sd).exitCode = 0) :=
  c3_amended (("foo").data) (("FOO").data) (("Foo").data) [("r").data]
    (dispatchPlan (("foo").data) (("FOO").data) [("r").data]) (by decide)
    [(dispatchPath [("r").data], ("no anchors here").data)]
    (("no anchors here").data) (by decide) (by decide) (by decide)

-- ---------------------------------------------------------------------------
-- Claim C1: anchor-based insertion, record by record
-- ---------------------------------------------------------------------------

/-- One anchor/insertion/guard record of the patch phase, together with the
side of the anchor on which the code splices the insertion (`before = true`
for the two `lang_dispatch.c` records, which use
`content.replace(marker, addition + marker)`). -/
structure PatchRec where
  guardStr : Str
  anchor : Str
  ins : Str
  before : Bool
deriving Repr, DecidableEq

/-- The single substitution a record performs. -/
def recStep (r : PatchRec) : Step :=
  if r.before then ⟨r.anchor, r.ins ++ r.anchor⟩ else ⟨r.anchor, r.anchor ++ r.ins⟩

/-- All thirteen anchor records of `generate_language`, in execution order. -/
def nlRecords (nameL nameU titleS : Str) : List PatchRec :=
  [ ⟨langGuard nameU, helperMarker, helperAdd nameU, false⟩,
    ⟨langGuard nameU, fwdMarker, fwdAdd nameU titleS, false⟩,
    ⟨langGuard nameU, stateMarker, stateAdd nameL nameU titleS, false⟩,
    ⟨langGuard nameU, initDeclMarker, initDeclAdd nameL nameU, false⟩,
    ⟨langGuard nameU, initCallMarker, initCallAdd nameL nameU, false⟩,
    ⟨dispatchGuard nameL, includeMarker, includeAdd nameL nameU, true⟩,
    ⟨dispatchGuard nameL, dispatchMarker, dispatchAdd nameL nameU, true⟩,
    ⟨langGuard nameU, optionMarker, optionAdd nameU titleS, false⟩,
    ⟨langGuard nameU, cmIncludeMarker, cmIncludeAdd nameL nameU, false⟩,
    ⟨langGuard nameU, lokiSrcMarker, lokiSrcAdd nameL nameU, false⟩,
    ⟨langGuard nameU, lokiLinkMarker, lokiLinkAdd nameL nameU, false⟩,
    ⟨langGuard nameU, psndMarker, psndAdd nameL nameU, false⟩,
    ⟨testsGuard nameL, testsMarker, testsAdd nameL nameU, false⟩ ]

/-- Sanity check: the records are exactly the substitutions of the six
patch plans, in the same order. -/
theorem nlRecords_match_plans (nameL nameU titleS : Str) (root : FPath) :
    (nlRecords nameL nameU titleS).map recStep =
      ((nlPlans nameL nameU titleS root).map PatchPlan.steps).join := by
  simp [nlRecords, nlPlans, configPlan, dispatchPlan, cmakePlan, lokiPlan, psndPlan,
    testsPlan, recStep]

/-- Apply one record to file content following the per-record algorithm the
code uses at file granularity: skip when the guard is already present,
otherwise perform the record's substitution. -/
def applyRecordG (c : Str) (r : PatchRec) : Str :=
  if containsSub c r.guardStr then c
  else replaceAll c (recStep r).pat (recStep r).rep

theorem applyRecordG_of_contains (c : Str) (r : PatchRec)
    (h : containsSub c r.guardStr = true) : applyRecordG c r = c := by
  unfold applyRecordG
  rw [h]
  simp

theorem nlRecords_anchor_ne (nameL nameU titleS : Str) :
    ∀ r ∈ nlRecords nameL nameU titleS, r.anchor ≠ [] := by
  intro r hr
  simp only [nlRecords, List.mem_cons, List.not_mem_nil, or_false] at hr
  rcases hr with rfl | rfl | rfl | rfl | rfl | rfl | rfl | rfl | rfl | rfl | rfl | rfl | rfl
  · show helperMarker ≠ []
    decide
  · show fwdMarker ≠ []
    decide
  · show stateMarker ≠ []
    decide
  · show initDeclMarker ≠ []
    decide
  · show initCallMarker ≠ []
    decide
  · show includeMarker ≠ []
    decide
  · show dispatchMarker ≠ []
    decide
  · show optionMarker ≠ []
    decide
  · show cmIncludeMarker ≠ []
    decide
  · show lokiSrcMarker ≠ []
    decide
  · show lokiLinkMarker ≠ []
    decide
  · show psndMarker ≠ []
    decide
  · show testsMarker ≠ []
    decide

/-- C1 counterexample: for the include record of `lang_dispatch.c` (present
in the record list), a host file containing the anchor exactly once and no
guard is patched with the insertion immediately BEFORE the anchor, not
after it as the claim states; moreover, because this record's insertion
does not embed its guard string `"foo"`, a second application duplicates
the insertion instead of leaving the file byte-identical. -/
theorem c1_counterexample :
    (⟨dispatchGuard (("foo").data), includeMarker,
        includeAdd (("foo").data) (("FOO").data), true⟩ : PatchRec) ∈
      nlRecords (("foo").data) (("FOO").data) (("Foo").data) ∧
    occCount (("X\n").data ++ includeMarker ++ ("\nY").data) includeMarker = 1 ∧
    containsSub (("X\n").data ++ includeMarker ++ ("\nY").data)
      (dispatchGuard (("foo").data)) = false ∧
    applyRecordG (("X\n").data ++ includeMarker ++ ("\nY").data)
        ⟨dispatchGuard (("foo").data), includeMarker,
          includeAdd (("foo").data) (("FOO").data), true⟩ =
      ("X\n").data ++ includeAdd (("foo").data) (("FOO").data) ++ includeMarker
        ++ ("\nY").data ∧
    applyRecordG (("X\n").data ++ includeMarker ++ ("\nY").data)
        ⟨dispatchGuard (("foo").data), includeMarker,
          includeAdd (("foo").data) (("FOO").data), true⟩ ≠
      ("X\n").data ++ includeMarker ++ includeAdd (("foo").data) (("FOO").data)
        ++ ("\nY").data ∧
    applyRecordG
        (applyRecordG (("X\n").data ++ includeMarker ++ ("\nY").data)
          ⟨dispatchGuard (("foo").data), includeMarker,
            includeAdd (("foo").data) (("FOO").data), true⟩)
        ⟨dispatchGuard (("foo").data), includeMarker,
          includeAdd (("foo").data) (("FOO").data), true⟩ ≠
      applyRecordG (("X\n").data ++ includeMarker ++ ("\nY").data)
        ⟨dispatchGuard (("foo").data), includeMarker,
          includeAdd (("foo").data) (("FOO").data), true⟩ := by
  decide

/-- C1 amended: for every record of the patch phase, on a host file
containing the record's anchor exactly once and not containing its guard,
one application splices the insertion text as a single substitution at the
anchor — immediately after it for the `lang_config.h`, `CMakeLists.txt`
and cmake-fragment records, immediately BEFORE it for the two
`lang_dispatch.c` records — leaving all other content unchanged; and
whenever the record's insertion embeds its guard string (true of every
record except the dispatch include record), a second application leaves
the file byte-identical. -/
theorem c1_amended (nameL nameU titleS : Str) (r : PatchRec)
    (hr : r ∈ nlRecords nameL nameU titleS) (a b : Str)
    (hocc : occCount (a ++ r.anchor ++ b) r.anchor = 1)
    (hg : containsSub (a ++ r.anchor ++ b) r.guardStr = false) :
    (r.before = false → applyRecordG (a ++ r.anchor ++ b) r = a ++ r.anchor ++ r.ins ++ b) ∧
    (r.before = true → applyRecordG (a ++ r.anchor ++ b) r = a ++ r.ins ++ r.anchor ++ b) ∧
    (embedsGuard r.ins r.guardStr →
      applyRecordG (applyRecordG (a ++ r.anchor ++ b) r) r =
        applyRecordG (a ++ r.anchor ++ b) r) := by
  obtain ⟨p, ps, hp⟩ : ∃ p ps, r.anchor = p :: ps := by
    have hne := nlRecords_anchor_ne nameL nameU titleS r hr
    cases hq : r.anchor with
    | nil => exact absurd hq hne
    | cons p ps => exact ⟨p, ps, rfl⟩
  have happly : ∀ rep : Str, replaceAll (a ++ r.anchor ++ b) r.anchor rep = a ++ rep ++ b := by
    intro rep
    rw [hp] at hocc ⊢
    exact replaceAll_unique_occ p ps a b rep hocc
  have hfirst : applyRecordG (a ++ r.anchor ++ b) r =
      (if r.before then a ++ (r.ins ++ r.anchor) ++ b else a ++ (r.anchor ++ r.ins) ++ b) := by
    unfold applyRecordG
    rw [hg]
    simp only [Bool.false_eq_true, if_false]
    cases hb : r.before with
    | true =>
      have hstep : recStep r = ⟨r.anchor, r.ins ++ r.anchor⟩ := by
        simp [recStep, hb]
      rw [hstep]
      show replaceAll (a ++ r.anchor ++ b) r.anchor (r.ins ++ r.anchor) =
        a ++ (r.ins ++ r.anchor) ++ b
      exact happly (r.ins ++ r.anchor)
    | false =>
      have hstep : recStep r = ⟨r.anchor, r.anchor ++ r.ins⟩ := by
        simp [recStep, hb]
      rw [hstep]
      show replaceAll (a ++ r.anchor ++ b) r.anchor (r.anchor ++ r.ins) =
        a ++ (r.anchor ++ r.ins) ++ b
      exact happly (r.anchor ++ r.ins)
  refine ⟨fun hb => ?_, fun hb => ?_, fun hemb => ?_⟩
  · rw [hfirst, hb]
    simp [List.append_assoc]
  · rw [hfirst, hb]
    simp [List.append_assoc]
  · have hcon : containsSub (applyRecordG (a ++ r.anchor ++ b) r) r.guardStr = true := by
      rw [hfirst]
      have hins := containsSub_of_embeds hemb
      cases hb : r.before with
      | true =>
        simp only [if_true]
        exact containsSub_mono_right b
          (containsSub_mono_left a (containsSub_mono_right r.anchor hins))
      | false =>
        simp only [Bool.false_eq_true, if_false]
        exact containsSub_mono_right b
          (containsSub_mono_left a (containsSub_mono_left r.anchor hins))
    exact applyRecordG_of_contains _ r hcon

/-- C1 amended witness: the helper-macro record of `lang_config.h` for
plugin `foo`, on a small host file holding the anchor once. -/
theorem c1_amended_witness :
    (false = false →
      applyRecordG (("A").data ++ helperMarker ++ ("B").data)
          ⟨langGuard (("FOO").data), helperMarker, helperAdd (("FOO").data), false⟩ =
        ("A").data ++ helperMarker ++ helperAdd (("FOO").data) ++ ("B").data) ∧
    (false = true →
      applyRecordG (("A").data ++ helperMarker ++ ("B").data)
          ⟨langGuard (("FOO").data), helperMarker, helperAdd (("FOO").data), false⟩ =
        ("A").data ++ helperAdd (("FOO").data) ++ helperMarker ++ ("B").data) ∧
    (embedsGuard (helperAdd (("FOO").data)) (langGuard (("FOO").data)) →
      applyRecordG
          (applyRecordG (("A").data ++ helperMarker ++ ("B").data)
            ⟨langGuard (("FOO").data), helperMarker, helperAdd (("FOO").data), false⟩)
          ⟨langGuard (("FOO").data), helperMarker, helperAdd (("FOO").data), false⟩ =
        applyRecordG (("A").data ++ helperMarker ++ ("B").data)
          ⟨langGuard (("FOO").data), helperMarker, helperAdd (("FOO").data), false⟩) :=
  c1_amended (("foo").data) (("FOO").data) (("Foo").data)
    ⟨langGuard (("FOO").data), helperMarker, helperAdd (("FOO").data), false⟩
    (by decide) (("A").data) (("B").data) (by decide) (by decide)

-- ---------------------------------------------------------------------------
-- Guard-embedding facts about the insertion texts (toward claim C2)
-- ---------------------------------------------------------------------------

theorem helperAdd_embeds (nameU : Str) : embedsGuard (helperAdd nameU) (langGuard nameU) := by
  refine ⟨("\n\n#ifdef ").data,
    ("\n#define IF_LANG_").data ++ nameU ++ ("(x) x\n#else\n#define IF_LANG_").data
      ++ nameU ++ ("(x)\n#endif").data, ?_⟩
  have hsplit : ("\n\n#ifdef LANG_").data = ("\n\n#ifdef ").data ++ ("LANG_").data := by
    decide
  simp only [helperAdd, langGuard, hsplit]
  simp [List.append_assoc]

theorem fwdAdd_embeds (nameU titleS : Str) : embedsGuard (fwdAdd nameU titleS) (langGuard nameU) := by
  refine ⟨("\nIF_").data, ("(struct Loki").data ++ titleS ++ ("State;)").data, ?_⟩
  have hsplit : ("\nIF_LANG_").data = ("\nIF_").data ++ ("LANG_").data := by decide
  simp only [fwdAdd, langGuard, hsplit]
  simp [List.append_assoc]

theorem stateAdd_embeds (nameL nameU titleS : Str) :
    embedsGuard (stateAdd nameL nameU titleS) (langGuard nameU) := by
  refine ⟨(" \\\n    IF_").data,
    ("(struct Loki").data ++ titleS ++ ("State *").data ++ nameL ++ ("_state;)").data, ?_⟩
  have hsplit : (" \\\n    IF_LANG_").data = (" \\\n    IF_").data ++ ("LANG_").data := by
    decide
  simp only [stateAdd, langGuard, hsplit]
  simp [List.append_assoc]

theorem initDeclAdd_embeds (nameL nameU : Str) :
    embedsGuard (initDeclAdd nameL nameU) (langGuard nameU) := by
  refine ⟨("\nIF_").data, ("(void ").data ++ nameL ++ ("_loki_lang_init(void);)").data, ?_⟩
  have hsplit : ("\nIF_LANG_").data = ("\nIF_").data ++ ("LANG_").data := by decide
  simp only [initDeclAdd, langGuard, hsplit]
  simp [List.append_assoc]

theorem initCallAdd_embeds (nameL nameU : Str) :
    embedsGuard (initCallAdd nameL nameU) (langGuard nameU) := by
  refine ⟨(" \\\n    IF_").data, ("(").data ++ nameL ++ ("_loki_lang_init();)").data, ?_⟩
  have hsplit : (" \\\n    IF_LANG_").data = (" \\\n    IF_").data ++ ("LANG_").data := by
    decide
  simp only [initCallAdd, langGuard, hsplit]
  simp [List.append_assoc]

theorem dispatchAdd_embeds (nameL nameU : Str) :
    embedsGuard (dispatchAdd nameL nameU) (dispatchGuard nameL) := by
  refine ⟨("#ifdef LANG_").data ++ nameU ++ ("\n    if (strcmp(lang, ").data,
    (") == 0) \x7b\n        return ").data ++ nameL
      ++ ("_repl_main(argc, argv);\n    \x7d\n#endif\n\n    ").data, ?_⟩
  have hsplit : ("\n    if (strcmp(lang, \"").data =
      ("\n    if (strcmp(lang, ").data ++ ("\"").data := by decide
  have hsplit2 : ("\") == 0) \x7b\n        return ").data =
      ("\"").data ++ (") == 0) \x7b\n        return ").data := by decide
  simp only [dispatchAdd, dispatchGuard, hsplit, hsplit2]
  simp [List.append_assoc]

theorem optionAdd_embeds (nameU titleS : Str) :
    embedsGuard (optionAdd nameU titleS) (langGuard nameU) := by
  refine ⟨("\noption(").data, (" \"Include the ").data ++ titleS ++ (" language\" ON)").data, ?_⟩
  have hsplit : ("\noption(LANG_").data = ("\noption(").data ++ ("LANG_").data := by decide
  simp only [optionAdd, langGuard, hsplit]
  simp [List.append_assoc]

theorem cmIncludeAdd_embeds (nameL nameU : Str) :
    embedsGuard (cmIncludeAdd nameL nameU) (langGuard nameU) := by
  refine ⟨("\n\nif(").data, (")\n    include(psnd_").data ++ nameL ++ ("_library)\nendif()").data, ?_⟩
  have hsplit : ("\n\nif(LANG_").data = ("\n\nif(").data ++ ("LANG_").data := by decide
  simp only [cmIncludeAdd, langGuard, hsplit]
  simp [List.append_assoc]

theorem lokiSrcAdd_embeds (nameL nameU : Str) :
    embedsGuard (lokiSrcAdd nameL nameU) (langGuard nameU) := by
  refine ⟨("\n\nif(").data,
    (")\n    list(APPEND LOKI_LANG_SOURCES $\x7bPSND_ROOT_DIR\x7d/src/lang/").data
      ++ nameL ++ ("/register.c)\nendif()").data, ?_⟩
  have hsplit : ("\n\nif(LANG_").data = ("\n\nif(").data ++ ("LANG_").data := by decide
  simp only [lokiSrcAdd, langGuard, hsplit]
  simp [List.append_assoc]

theorem lokiLinkAdd_embeds (nameL nameU : Str) :
    embedsGuard (lokiLinkAdd nameL nameU) (langGuard nameU) := by
  refine ⟨("\n\nif(").data,
    (")\n    list(APPEND LOKI_PUBLIC_LIBS ").data ++ nameL
      ++ (")\n    target_compile_definitions(libloki PUBLIC LANG_").data ++ nameU
      ++ ("=1)\nendif()").data, ?_⟩
  have hsplit : ("\n\nif(LANG_").data = ("\n\nif(").data ++ ("LANG_").data := by decide
  simp only [lokiLinkAdd, langGuard, hsplit]
  simp [List.append_assoc]

theorem psndAdd_embeds (nameL nameU : Str) :
    embedsGuard (psndAdd nameL nameU) (langGuard nameU) := by
  refine ⟨("\n\nif(").data,
    (")\n    list(APPEND PSND_LANG_SOURCES\n        $\x7bPSND_ROOT_DIR\x7d/src/lang/").data
      ++ nameL ++ ("/repl.c\n        $\x7bPSND_ROOT_DIR\x7d/src/lang/").data
      ++ nameL ++ ("/dispatch.c\n    )\nendif()").data, ?_⟩
  have hsplit : ("\n\nif(LANG_").data = ("\n\nif(").data ++ ("LANG_").data := by decide
  simp only [psndAdd, langGuard, hsplit]
  simp [List.append_assoc]

theorem testsAdd_embeds (nameL nameU : Str) :
    embedsGuard (testsAdd nameL nameU) (testsGuard nameL) := by
  refine ⟨("\n\nif(LANG_").data ++ nameU
      ++ (")\n    add_subdirectory($\x7bPSND_ROOT_DIR\x7d/").data,
    (" $\x7bCMAKE_BINARY_DIR\x7d/tests/").data ++ nameL ++ (")\nendif()").data, ?_⟩
  have hsplit : (")\n    add_subdirectory($\x7bPSND_ROOT_DIR\x7d/tests/").data =
      (")\n    add_subdirectory($\x7bPSND_ROOT_DIR\x7d/").data ++ ("tests/").data := by decide
  simp only [testsAdd, testsGuard, hsplit]
  simp [List.append_assoc]

theorem configPlan_pats (nameL nameU titleS : Str) (root : FPath) :
    ∀ st ∈ (configPlan nameL nameU titleS root).steps, st.pat ≠ [] := by
  intro st hst
  simp only [configPlan, List.mem_cons, List.not_mem_nil, or_false] at hst
  rcases hst with rfl | rfl | rfl | rfl | rfl
  · show helperMarker ≠ []
    decide
  · show fwdMarker ≠ []
    decide
  · show stateMarker ≠ []
    decide
  · show initDeclMarker ≠ []
    decide
  · show initCallMarker ≠ []
    decide

theorem configPlan_reps (nameL nameU titleS : Str) (root : FPath) :
    ∀ st ∈ (configPlan nameL nameU titleS root).steps,
      embedsGuard st.rep (configPlan nameL nameU titleS root).guardStr := by
  intro st hst
  simp only [configPlan, List.mem_cons, List.not_mem_nil, or_false] at hst
  rcases hst with rfl | rfl | rfl | rfl | rfl
  · exact embedsGuard_append_left helperMarker (helperAdd_embeds nameU)
  · exact embedsGuard_append_left fwdMarker (fwdAdd_embeds nameU titleS)
  · exact embedsGuard_append_left stateMarker (stateAdd_embeds nameL nameU titleS)
  · exact embedsGuard_append_left initDeclMarker (initDeclAdd_embeds nameL nameU)
  · exact embedsGuard_append_left initCallMarker (initCallAdd_embeds nameL nameU)

theorem cmakePlan_pats (nameL nameU titleS : Str) (root : FPath) :
    ∀ st ∈ (cmakePlan nameL nameU titleS root).steps, st.pat ≠ [] := by
  intro st hst
  simp only [cmakePlan, List.mem_cons, List.not_mem_nil, or_false] at hst
  rcases hst with rfl | rfl
  · show optionMarker ≠ []
    decide
  · show cmIncludeMarker ≠ []
    decide

theorem cmakePlan_reps (nameL nameU titleS : Str) (root : FPath) :
    ∀ st ∈ (cmakePlan nameL nameU titleS root).steps,
      embedsGuard st.rep (cmakePlan nameL nameU titleS root).guardStr := by
  intro st hst
  simp only [cmakePlan, List.mem_cons, List.not_mem_nil, or_false] at hst
  rcases hst with rfl | rfl
  · exact embedsGuard_append_left optionMarker (optionAdd_embeds nameU titleS)
  · exact embedsGuard_append_left cmIncludeMarker (cmIncludeAdd_embeds nameL nameU)

theorem lokiPlan_pats (nameL nameU : Str) (root : FPath) :
    ∀ st ∈ (lokiPlan nameL nameU root).steps, st.pat ≠ [] := by
  intro st hst
  simp only [lokiPlan, List.mem_cons, List.not_mem_nil, or_false] at hst
  rcases hst with rfl | rfl
  · show lokiSrcMarker ≠ []
    decide
  · show lokiLinkMarker ≠ []
    decide

theorem lokiPlan_reps (nameL nameU : Str) (root : FPath) :
    ∀ st ∈ (lokiPlan nameL nameU root).steps,
      embedsGuard st.rep (lokiPlan nameL nameU root).guardStr := by
  intro st hst
  simp only [lokiPlan, List.mem_cons, List.not_mem_nil, or_false] at hst
  rcases hst with rfl | rfl
  · exact embedsGuard_append_left lokiSrcMarker (lokiSrcAdd_embeds nameL nameU)
  · exact embedsGuard_append_left lokiLinkMarker (lokiLinkAdd_embeds nameL nameU)

theorem psndPlan_pats (nameL nameU : Str) (root : FPath) :
    ∀ st ∈ (psndPlan nameL nameU root).steps, st.pat ≠ [] := by
  intro st hst
  simp only [psndPlan, List.mem_cons, List.not_mem_nil, or_false] at hst
  rcases hst with rfl
  show psndMarker ≠ []
  decide

theorem psndPlan_reps (nameL nameU : Str) (root : FPath) :
    ∀ st ∈ (psndPlan nameL nameU root).steps,
      embedsGuard st.rep (psndPlan nameL nameU root).guardStr := by
  intro st hst
  simp only [psndPlan, List.mem_cons, List.not_mem_nil, or_false] at hst
  rcases hst with rfl
  exact embedsGuard_append_left psndMarker (psndAdd_embeds nameL nameU)

theorem testsPlan_pats (nameL nameU : Str) (root : FPath) :
    ∀ st ∈ (testsPlan nameL nameU root).steps, st.pat ≠ [] := by
  intro st hst
  simp only [testsPlan, List.mem_cons, List.not_mem_nil, or_false] at hst
  rcases hst with rfl
  show testsMarker ≠ []
  decide

theorem testsPlan_reps (nameL nameU : Str) (root : FPath) :
    ∀ st ∈ (testsPlan nameL nameU root).steps,
      embedsGuard st.rep (testsPlan nameL nameU root).guardStr := by
  intro st hst
  simp only [testsPlan, List.mem_cons, List.not_mem_nil, or_false] at hst
  rcases hst with rfl
  exact embedsGuard_append_left testsMarker (testsAdd_embeds nameL nameU)

theorem fsWriteAll_append (l1 l2 : List (FPath × Str)) (fs : FS) :
    fsWriteAll (l1 ++ l2) fs = fsWriteAll l2 (fsWriteAll l1 fs) := by
  induction l1 generalizing fs with
  | nil => rfl
  | cons e rest ih =>
    obtain ⟨p, c⟩ := e
    show fsWriteAll (rest ++ l2) (fsWrite fs p c) = _
    rw [ih]
    rfl

theorem nlPlans_paths_nodup (nameL nameU titleS : Str) (root : FPath) :
    ((nlPlans nameL nameU titleS root).map PatchPlan.path).Nodup := by
  have h1 : (nlPlans nameL nameU titleS root).map PatchPlan.path =
      ([ [("src").data, ("lang_config.h").data],
         [("src").data, ("lang_dispatch.c").data],
         [("CMakeLists.txt").data],
         [("scripts").data, ("cmake").data, ("psnd_loki_library.cmake").data],
         [("scripts").data, ("cmake").data, ("psnd_psnd_binary.cmake").data],
         [("scripts").data, ("cmake").data, ("psnd_tests.cmake").data] ] :
        List FPath).map (fun l => root ++ l) := by
    simp [nlPlans, configPlan, dispatchPlan, cmakePlan, lokiPlan, psndPlan, testsPlan,
      configPath, dispatchPath, cmakePath, lokiCmakePath, psndCmakePath, testsCmakePath]
  rw [h1]
  refine List.Nodup.map (fun x y h => List.append_cancel_left h) (by decide)

theorem patchResult_guard_std (pl : PatchPlan) (c : Str)
    (hpats : ∀ st ∈ pl.steps, st.pat ≠ [])
    (hreps : ∀ st ∈ pl.steps, embedsGuard st.rep pl.guardStr)
    (h : containsSub c pl.guardStr = true ∨ ∃ st ∈ pl.steps, containsSub c st.pat = true) :
    ∃ c1, patchResult pl false (some c) = some c1 ∧ containsSub c1 pl.guardStr = true := by
  cases hg : containsSub c pl.guardStr with
  | true => exact ⟨c, by simp [patchResult, hg], hg⟩
  | false =>
    refine ⟨applySteps c pl.steps, by simp [patchResult, hg], ?_⟩
    exact applySteps_guard_chain pl.steps c hpats hreps h

theorem dispatchPlan_guard_after (nameL nameU : Str) (root : FPath) (c : Str)
    (h : containsSub (replaceAll c includeMarker (includeAdd nameL nameU ++ includeMarker))
      dispatchMarker = true) :
    containsSub (applySteps c (dispatchPlan nameL nameU root).steps)
      (dispatchGuard nameL) = true := by
  show containsSub
    (replaceAll (replaceAll c includeMarker (includeAdd nameL nameU ++ includeMarker))
      dispatchMarker (dispatchAdd nameL nameU ++ dispatchMarker))
    (dispatchGuard nameL) = true
  exact contains_replaceAll_fire (by decide) h
    (embedsGuard_append_right dispatchMarker (dispatchAdd_embeds nameL nameU))

theorem patchResult_guard_dispatch (nameL nameU : Str) (root : FPath) (c : Str)
    (h : containsSub c (dispatchGuard nameL) = true ∨
      containsSub (replaceAll c includeMarker (includeAdd nameL nameU ++ includeMarker))
        dispatchMarker = true) :
    ∃ c1, patchResult (dispatchPlan nameL nameU root) false (some c) = some c1 ∧
      containsSub c1 (dispatchGuard nameL) = true := by
  cases hg : containsSub c (dispatchGuard nameL) with
  | true =>
    refine ⟨c, ?_, hg⟩
    show patchResult (dispatchPlan nameL nameU root) false (some c) = some c
    have hg' : containsSub c (dispatchPlan nameL nameU root).guardStr = true := hg
    simp [patchResult, hg']
  | false =>
    rcases h with h | h
    · rw [hg] at h
      cases h
    · refine ⟨applySteps c (dispatchPlan nameL nameU root).steps, ?_, ?_⟩
      · have hg' : containsSub c (dispatchPlan nameL nameU root).guardStr = false := hg
        simp [patchResult, hg']
      · exact dispatchPlan_guard_after nameL nameU root c h

theorem lastWrite_some_mem (l : List (FPath × Str)) (q : FPath) (c : Str)
    (h : lastWrite l q = some c) : ∃ pc ∈ l, pc.1 = q := by
  by_contra hcon
  push_neg at hcon
  rw [lastWrite_none_of_absent l q hcon] at h
  cases h

/-- The six patch plans of a run, derived from the raw inputs the way
`generate_language` derives them. -/
def nlPlansOf (name : Str) (exts : List Str) (root : FPath) : List PatchPlan :=
  nlPlans (buildSubs name exts).name (buildSubs name exts).nameU
    (buildSubs name exts).title root

theorem generateNL_real (T : Templates) (name : Str) (exts : List Str) (root : FPath)
    (fs : FS) :
    generateNL T name exts root false fs =
      ((runPatches (nlPlansOf name exts root) false
          (fsWriteAll (nlFilesAll T (buildSubs name exts) root) fs)).1,
       (nlFilesA T (buildSubs name exts) root).map (fun pc => RAction.createA pc.1)
         ++ RAction.mkdirA (nlImplDir root (buildSubs name exts).name)
           :: ((nlFilesB T (buildSubs name exts) root).map (fun pc => RAction.createA pc.1)
             ++ (runPatches (nlPlansOf name exts root) false
                 (fsWriteAll (nlFilesAll T (buildSubs name exts) root) fs)).2)) := by
  unfold generateNL nlPlansOf nlFilesAll
  simp only [emitList_real, fsWriteAll_append]
  simp [List.append_assoc]

theorem generateNL_real_fs (T : Templates) (name : Str) (exts : List Str)
    (root : FPath) (fs : FS) :
    (generateNL T name exts root false fs).1 =
      (runPatches (nlPlansOf name exts root) false
        (fsWriteAll (nlFilesAll T (buildSubs name exts) root) fs)).1 := by
  rw [generateNL_real]

theorem generateNL_real_report (T : Templates) (name : Str) (exts : List Str)
    (root : FPath) (fs : FS) :
    (generateNL T name exts root false fs).2 =
      (nlFilesA T (buildSubs name exts) root).map (fun pc => RAction.createA pc.1)
        ++ RAction.mkdirA (nlImplDir root (buildSubs name exts).name)
          :: ((nlFilesB T (buildSubs name exts) root).map (fun pc => RAction.createA pc.1)
            ++ (runPatches (nlPlansOf name exts root) false
                (fsWriteAll (nlFilesAll T (buildSubs name exts) root) fs)).2) := by
  rw [generateNL_real]

/-- Readiness of a project root for the centralized generator: each of the
six shared host files exists and either already carries its guard string or
contains the anchor text from which one run inserts it (for
`lang_dispatch.c`, the dispatch anchor must still be present after the
include insertion, which holds whenever the two anchors do not overlap);
and no emitted artifact path collides with a host-file path — the latter
fails only for the plugin name `loki`, whose emitted cmake fragment
overwrites `psnd_loki_library.cmake`. -/
structure RootReady (T : Templates) (name : Str) (exts : List Str) (root : FPath)
    (fs : FS) : Prop where
  disj : ∀ pc ∈ nlFilesAll T (buildSubs name exts) root,
    ∀ pl ∈ nlPlansOf name exts root, pc.1 ≠ pl.path
  config : ∃ c, fsRead fs (configPath root) = some c ∧
    (containsSub c (langGuard (buildSubs name exts).nameU) = true ∨
     ∃ st ∈ (configPlan (buildSubs name exts).name (buildSubs name exts).nameU
         (buildSubs name exts).title root).steps, containsSub c st.pat = true)
  dispatch : ∃ c, fsRead fs (dispatchPath root) = some c ∧
    (containsSub c (dispatchGuard (buildSubs name exts).name) = true ∨
     containsSub (replaceAll c includeMarker
       (includeAdd (buildSubs name exts).name (buildSubs name exts).nameU ++ includeMarker))
       dispatchMarker = true)
  cmake : ∃ c, fsRead fs (cmakePath root) = some c ∧
    (containsSub c (langGuard (buildSubs name exts).nameU) = true ∨
     ∃ st ∈ (cmakePlan (buildSubs name exts).name (buildSubs name exts).nameU
         (buildSubs name exts).title root).steps, containsSub c st.pat = true)
  loki : ∃ c, fsRead fs (lokiCmakePath root) = some c ∧
    (containsSub c (langGuard (buildSubs name exts).nameU) = true ∨
     ∃ st ∈ (lokiPlan (buildSubs name exts).name (buildSubs name exts).nameU root).steps,
       containsSub c st.pat = true)
  psnd : ∃ c, fsRead fs (psndCmakePath root) = some c ∧
    (containsSub c (langGuard (buildSubs name exts).nameU) = true ∨
     ∃ st ∈ (psndPlan (buildSubs name exts).name (buildSubs name exts).nameU root).steps,
       containsSub c st.pat = true)
  tests : ∃ c, fsRead fs (testsCmakePath root) = some c ∧
    (containsSub c (testsGuard (buildSubs name exts).name) = true ∨
     ∃ st ∈ (testsPlan (buildSubs name exts).name (buildSubs name exts).nameU root).steps,
       containsSub c st.pat = true)

/-- C2: on a ready project root, running the centralized generator a second
time with identical inputs (i) finds, for every host-file plan, its guard
string already present in the file the first run left behind, (ii) reports
every patch step of the second run as a skip (and every artifact as a
create, identically to the first run), and (iii) leaves every file of the
filesystem byte-identical to its state after the first run — in particular
every re-emitted artifact. -/
theorem c2_idempotent_rerun (T : Templates) (name : Str) (exts : List Str)
    (root : FPath) (fs : FS) (h : RootReady T name exts root fs) :
    (∀ pl ∈ nlPlansOf name exts root,
      ∃ c, fsRead (generateNL T name exts root false fs).1 pl.path = some c ∧
        containsSub c pl.guardStr = true) ∧
    (generateNL T name exts root false (generateNL T name exts root false fs).1).2 =
      (nlFilesA T (buildSubs name exts) root).map (fun pc => RAction.createA pc.1)
        ++ RAction.mkdirA (nlImplDir root (buildSubs name exts).name)
          :: ((nlFilesB T (buildSubs name exts) root).map (fun pc => RAction.createA pc.1)
            ++ (nlPlansOf name exts root).map (fun pl => RAction.skipA pl.path)) ∧
    (∀ q, fsRead (generateNL T name exts root false
        (generateNL T name exts root false fs).1).1 q =
      fsRead (generateNL T name exts root false fs).1 q) := by
  obtain ⟨hdisj, hcfg, hdsp, hcmk, hlok, hpsd, htst⟩ := h
  have hnodup : ((nlPlansOf name exts root).map PatchPlan.path).Nodup :=
    nlPlans_paths_nodup _ _ _ root
  have hostRead : ∀ pl ∈ nlPlansOf name exts root,
      fsRead (fsWriteAll (nlFilesAll T (buildSubs name exts) root) fs) pl.path =
        fsRead fs pl.path := by
    intro pl hpl
    exact fsRead_fsWriteAll_absent _ fs pl.path (fun pc hpc => hdisj pc hpc pl hpl)
  have hgen1 := generateNL_real T name exts root fs
  have hfs1 : (generateNL T name exts root false fs).1 =
      (runPatches (nlPlansOf name exts root) false
        (fsWriteAll (nlFilesAll T (buildSubs name exts) root) fs)).1 := by
    rw [hgen1]
  have guard1 : ∀ pl ∈ nlPlansOf name exts root,
      ∃ c, fsRead (generateNL T name exts root false fs).1 pl.path = some c ∧
        containsSub c pl.guardStr = true := by
    intro pl hpl
    have hread : fsRead (generateNL T name exts root false fs).1 pl.path =
        patchResult pl false (fsRead fs pl.path) := by
      rw [hfs1, runPatches_read_mem _ false _ pl hpl hnodup, hostRead pl hpl]
    have hpl' := hpl
    simp only [nlPlansOf, nlPlans, List.mem_cons, List.not_mem_nil, or_false] at hpl'
    rcases hpl' with rfl | rfl | rfl | rfl | rfl | rfl
    · obtain ⟨c, hc, hcase⟩ := hcfg
      have hc' : fsRead fs
          (configPlan (buildSubs name exts).name (buildSubs name exts).nameU
            (buildSubs name exts).title root).path = some c := hc
      rw [hc'] at hread
      obtain ⟨c1, hres, hg⟩ := patchResult_guard_std _ c
        (configPlan_pats _ _ _ _) (configPlan_reps _ _ _ _) hcase
      exact ⟨c1, hread.trans hres, hg⟩
    · obtain ⟨c, hc, hcase⟩ := hdsp
      have hc' : fsRead fs
          (dispatchPlan (buildSubs name exts).name (buildSubs name exts).nameU root).path =
          some c := hc
      rw [hc'] at hread
      obtain ⟨c1, hres, hg⟩ := patchResult_guard_dispatch
        (buildSubs name exts).name (buildSubs name exts).nameU root c hcase
      exact ⟨c1, hread.trans hres, hg⟩
    · obtain ⟨c, hc, hcase⟩ := hcmk
      have hc' : fsRead fs
          (cmakePlan (buildSubs name exts).name (buildSubs name exts).nameU
            (buildSubs name exts).title root).path = some c := hc
      rw [hc'] at hread
      obtain ⟨c1, hres, hg⟩ := patchResult_guard_std _ c
        (cmakePlan_pats _ _ _ _) (cmakePlan_reps _ _ _ _) hcase
      exact ⟨c1, hread.trans hres, hg⟩
    · obtain ⟨c, hc, hcase⟩ := hlok
      have hc' : fsRead fs
          (lokiPlan (buildSubs name exts).name (buildSubs name exts).nameU root).path =
          some c := hc
      rw [hc'] at hread
      obtain ⟨c1, hres, hg⟩ := patchResult_guard_std _ c
        (lokiPlan_pats _ _ _) (lokiPlan_reps _ _ _) hcase
      exact ⟨c1, hread.trans hres, hg⟩
    · obtain ⟨c, hc, hcase⟩ := hpsd
      have hc' : fsRead fs
          (psndPlan (buildSubs name exts).name (buildSubs name exts).nameU root).path =
          some c := hc
      rw [hc'] at hread
      obtain ⟨c1, hres, hg⟩ := patchResult_guard_std _ c
        (psndPlan_pats _ _ _) (psndPlan_reps _ _ _) hcase
      exact ⟨c1, hread.trans hres, hg⟩
    · obtain ⟨c, hc, hcase⟩ := htst
      have hc' : fsRead fs
          (testsPlan (buildSubs name exts).name (buildSubs name exts).nameU root).path =
          some c := hc
      rw [hc'] at hread
      obtain ⟨c1, hres, hg⟩ := patchResult_guard_std _ c
        (testsPlan_pats _ _ _) (testsPlan_reps _ _ _) hcase
      exact ⟨c1, hread.trans hres, hg⟩
  have hready2 : ∀ pl ∈ nlPlansOf name exts root,
      ∃ c, fsRead (fsWriteAll (nlFilesAll T (buildSubs name exts) root)
          (generateNL T name exts root false fs).1) pl.path = some c ∧
        containsSub c pl.guardStr = true := by
    intro pl hpl
    obtain ⟨c, hc, hg⟩ := guard1 pl hpl
    refine ⟨c, ?_, hg⟩
    rw [fsRead_fsWriteAll_absent _ _ pl.path (fun pc hpc => hdisj pc hpc pl hpl)]
    exact hc
  have hskip := runPatches_all_skip (nlPlansOf name exts root) false
    (fsWriteAll (nlFilesAll T (buildSubs name exts) root)
      (generateNL T name exts root false fs).1) hready2
  have hskip_fs : (runPatches (nlPlansOf name exts root) false
      (fsWriteAll (nlFilesAll T (buildSubs name exts) root)
        (generateNL T name exts root false fs).1)).1 =
      fsWriteAll (nlFilesAll T (buildSubs name exts) root)
        (generateNL T name exts root false fs).1 := by
    rw [hskip]
  have hskip_rep : (runPatches (nlPlansOf name exts root) false
      (fsWriteAll (nlFilesAll T (buildSubs name exts) root)
        (generateNL T name exts root false fs).1)).2 =
      (nlPlansOf name exts root).map (fun pl => RAction.skipA pl.path) := by
    rw [hskip]
  refine ⟨guard1, ?_, ?_⟩
  · rw [generateNL_real_report T name exts root (generateNL T name exts root false fs).1,
      hskip_rep]
  · intro q
    rw [generateNL_real_fs T name exts root (generateNL T name exts root false fs).1,
      hskip_fs, fsRead_fsWriteAll]
    cases hlw : lastWrite (nlFilesAll T (buildSubs name exts) root) q with
    | none => rfl
    | some c =>
      obtain ⟨pc, hpcmem, hpcq⟩ := lastWrite_some_mem _ q c hlw
      have hq : ∀ pl ∈ nlPlansOf name exts root, q ≠ pl.path := by
        intro pl hpl
        rw [← hpcq]
        exact hdisj pc hpcmem pl hpl
      rw [hfs1, runPatches_other _ false _ q hq, fsRead_fsWriteAll, hlw]

/-- A ready six-host-file project root used by the C2 witness: each host
file holds exactly its (first) anchor text and no guard. -/
def readyRootFS : FS :=
  [ (configPath [("r").data], helperMarker),
    (dispatchPath [("r").data], includeMarker ++ ("\n").data ++ dispatchMarker),
    (cmakePath [("r").data], optionMarker),
    (lokiCmakePath [("r").data], lokiSrcMarker),
    (psndCmakePath [("r").data], psndMarker),
    (testsCmakePath [("r").data], testsMarker) ]

/-- C2 witness: the plugin `fog` with extension `.fog` on the concrete
ready root. -/
theorem c2_idempotent_rerun_witness :
    (∀ pl ∈ nlPlansOf (("fog").data) [(".fog").data] [("r").data],
      ∃ c, fsRead (generateNL nlT0 (("fog").data) [(".fog").data] [("r").data]
          false readyRootFS).1 pl.path = some c ∧
        containsSub c pl.guardStr = true) ∧
    (generateNL nlT0 (("fog").data) [(".fog").data] [("r").data] false
        (generateNL nlT0 (("fog").data) [(".fog").data] [("r").data] false readyRootFS).1).2 =
      (nlFilesA nlT0 (buildSubs (("fog").data) [(".fog").data]) [("r").data]).map
          (fun pc => RAction.createA pc.1)
        ++ RAction.mkdirA (nlImplDir [("r").data]
            (buildSubs (("fog").data) [(".fog").data]).name)
          :: ((nlFilesB nlT0 (buildSubs (("fog").data) [(".fog").data]) [("r").data]).map
              (fun pc => RAction.createA pc.1)
            ++ (nlPlansOf (("fog").data) [(".fog").data] [("r").data]).map
                (fun pl => RAction.skipA pl.path)) ∧
    (∀ q, fsRead (generateNL nlT0 (("fog").data) [(".fog").data] [("r").data] false
        (generateNL nlT0 (("fog").data) [(".fog").data] [("r").data] false
          readyRootFS).1).1 q =
      fsRead (generateNL nlT0 (("fog").data) [(".fog").data] [("r").data] false
        readyRootFS).1 q) :=
  c2_idempotent_rerun nlT0 (("fog").data) [(".fog").data] [("r").data] readyRootFS
    { disj := by decide
      config := ⟨helperMarker, by decide, Or.inr
        ⟨⟨helperMarker, helperMarker
            ++ helperAdd (buildSubs (("fog").data) [(".fog").data]).nameU⟩,
          by decide, by decide⟩⟩
      dispatch := ⟨includeMarker ++ ("\n").data ++ dispatchMarker, by decide,
        Or.inr (by decide)⟩
      cmake := ⟨optionMarker, by decide, Or.inr
        ⟨⟨optionMarker, optionMarker
            ++ optionAdd (buildSubs (("fog").data) [(".fog").data]).nameU
              (buildSubs (("fog").data) [(".fog").data]).title⟩,
          by decide, by decide⟩⟩
      loki := ⟨lokiSrcMarker, by decide, Or.inr
        ⟨⟨lokiSrcMarker, lokiSrcMarker
            ++ lokiSrcAdd (buildSubs (("fog").data) [(".fog").data]).name
              (buildSubs (("fog").data) [(".fog").data]).nameU⟩,
          by decide, by decide⟩⟩
      psnd := ⟨psndMarker, by decide, Or.inr
        ⟨⟨psndMarker, psndMarker
            ++ psndAdd (buildSubs (("fog").data) [(".fog").data]).name
              (buildSubs (("fog").data) [(".fog").data]).nameU⟩,
          by decide, by decide⟩⟩
      tests := ⟨testsMarker, by decide, Or.inr
        ⟨⟨testsMarker, testsMarker
            ++ testsAdd (buildSubs (("fog").data) [(".fog").data]).name
              (buildSubs (("fog").data) [(".fog").data]).nameU⟩,
          by decide, by decide⟩⟩ }

/-- A ready project root used by the C2 counterexample (the loki host file
holds its anchors like the others). -/
def readyRootLokiFS : FS :=
  [ (configPath [("r").data], helperMarker),
    (dispatchPath [("r").data], includeMarker ++ ("\n").data ++ dispatchMarker),
    (cmakePath [("r").data], optionMarker),
    (lokiCmakePath [("r").data], lokiSrcMarker),
    (psndCmakePath [("r").data], psndMarker),
    (testsCmakePath [("r").data], testsMarker) ]

/-- C2 counterexample: for the accepted identifier `loki`, the emitted
cmake build-fragment artifact has the same path as the host file
`scripts/cmake/psnd_loki_library.cmake` and overwrites it with rendered
template content that does not contain the guard `LANG_LOKI`.  On the
second run the guard-string check for that host file therefore does NOT
find its guard: the file is reported as updated (written again), not
skipped — refuting "each per-file guard-string check finds its guard
already present in the file and skips writing" for every accepted
identifier. -/
theorem c2_counterexample :
    reMatchIdent (toLowerStr (("loki").data)) = true ∧
    fsRead (generateNL nlT0 (("loki").data) [(".loki").data] [("r").data] false
        readyRootLokiFS).1 (lokiCmakePath [("r").data]) =
      some (cmakeLibraryRender (buildSubs (("loki").data) [(".loki").data])) ∧
    containsSub (cmakeLibraryRender (buildSubs (("loki").data) [(".loki").data]))
      (langGuard (buildSubs (("loki").data) [(".loki").data]).nameU) = false ∧
    RAction.updateA (lokiCmakePath [("r").data]) ∈
      (generateNL nlT0 (("loki").data) [(".loki").data] [("r").data] false
        (generateNL nlT0 (("loki").data) [(".loki").data] [("r").data] false
          readyRootLokiFS).1).2 ∧
    RAction.skipA (lokiCmakePath [("r").data]) ∉
      (generateNL nlT0 (("loki").data) [(".loki").data] [("r").data] false
        (generateNL nlT0 (("loki").data) [(".loki").data] [("r").data] false
          readyRootLokiFS).1).2 := by
  decide
